import Mathlib

/-!
# Shallow embedding of the rpm-utils core (tagged-header codec and CPIO engine)

This file embeds, as executable Lean definitions, the parts of the
`rpm-utils` Rust sources that the verified claims are about:

* `src/utils/mod.rs` — `align_n_bytes`, the hex-ASCII u32 codec
  (`HexReader`/`HexWriter`), `parse_string`, `parse_strings`;
* `src/header/index.rs` — `Type`, `RType` with its conversion accessors,
  `Index`, `Index::from`, index (de)serialization;
* `src/header/mod.rs` — `Tags::tags_from_raw`, `extract`, and
  `TagsWrite::write_header`;
* `src/header/lead.rs` — `HeaderLead`;
* `src/lead.rs` — `Lead::read`, `Lead::write`, `impl PartialEq for Lead`;
* `src/rpm/file.rs` — the compressor dispatch of `into_uncompress_reader`;
* `src/payload/cpio.rs` — `FileEntry::read`, `FileEntry::write`,
  `is_safe_path`, and `extract_entry`.

Modelling conventions:

* Byte streams are `List Nat` with every element `< 256`; reading is
  explicit position/remainder passing over the list.
* Rust `u8/u16/u32/u64` values are `Nat`; where the source performs an
  `as u32` cast the model takes `% 2^32` explicitly.
* Rust `char` is modelled by its Unicode scalar value (a `Nat` satisfying
  `ValidScalar`); Rust `String` is modelled by its list of scalar values
  (a `List Nat`, each element a valid scalar), and UTF-8 encoding/decoding
  is modelled explicitly (`utf8Encode`, `utf8Decode`).
* `io::Result` is `Except RErr`; the `RErr` constructors mirror the
  `io::ErrorKind` values the sources construct, plus `.panic` for a Rust
  panic (out-of-bounds slice indexing), so that panicking executions are
  distinguishable from returned errors.
* Tag namespaces (`SignatureTag`, `Tag`) are ~300-entry enums whose
  `to_u32`/`from_u32` are mutually inverse on valid members; they are
  modelled by their `u32` ids directly (a `Nat`).
-/

/-- Error outcomes of the embedded code.  All but `panic` mirror the
`std::io::ErrorKind` values constructed by the sources; `panic` marks an
execution that panics in Rust (e.g. out-of-bounds slice indexing). -/
inductive RErr where
  | other
  | invalidData
  | invalidInput
  | notFound
  | unsupported
  | eof
  | panic
  deriving Repr, DecidableEq

/-- `align_n_bytes` from `src/utils/mod.rs`: number of padding bytes needed
to reach the next `n`-byte boundary starting from length `from`. -/
def align_n_bytes (frm n : Nat) : Nat :=
  (n - frm % n) % n

/-- Big-endian encoding of `v` into exactly `w` bytes (truncating to
`v % 256^w`), as performed by `write_be` on fixed-width integers. -/
def beBytes : Nat → Nat → List Nat
  | 0, _ => []
  | w + 1, v => beBytes w (v / 256) ++ [v % 256]

/-- Big-endian value of a byte list (the fold performed by `read_be`). -/
def beFold (l : List Nat) : Nat :=
  l.foldl (fun a b => a * 256 + b) 0

/-- `read_be` on a slice `&data[pos..]`, reading `w` bytes: panics when the
slice start is out of bounds, reports `UnexpectedEof` when fewer than `w`
bytes remain, and otherwise returns the big-endian value. -/
def readBEAt (data : List Nat) (pos w : Nat) : Except RErr Nat :=
  if data.length < pos then .error .panic
  else if data.length < pos + w then .error .eof
  else .ok (beFold ((data.drop pos).take w))

/-- Reading `w` bytes big-endian from the front of a stream, returning the
value and the remainder (`read_be` in sequential-reader position). -/
def takeBE (w : Nat) (bytes : List Nat) : Except RErr (Nat × List Nat) :=
  if bytes.length < w then .error .eof
  else .ok (beFold (bytes.take w), bytes.drop w)

/-- Reading `n` raw bytes from the front of a stream (`read_exact`). -/
def takeBytes (n : Nat) (bytes : List Nat) : Except RErr (List Nat × List Nat) :=
  if bytes.length < n then .error .eof
  else .ok (bytes.take n, bytes.drop n)

theorem beBytes_length (w v : Nat) : (beBytes w v).length = w := by
  induction w generalizing v with
  | zero => rfl
  | succ w ih => simp [beBytes, ih]

theorem beFold_append (l : List Nat) (x : Nat) :
    beFold (l ++ [x]) = beFold l * 256 + x := by
  simp [beFold, List.foldl_append]

theorem beFold_beBytes (w v : Nat) (h : v < 256 ^ w) :
    beFold (beBytes w v) = v := by
  induction w generalizing v with
  | zero =>
    simp [beBytes, beFold]
    omega
  | succ w ih =>
    have hv : v / 256 < 256 ^ w := by
      rw [Nat.div_lt_iff_lt_mul (by norm_num)]
      calc v < 256 ^ (w + 1) := h
        _ = 256 ^ w * 256 := by ring
    rw [beBytes, beFold_append, ih _ hv]
    omega

theorem readBEAt_append (pre mid post : List Nat) (w v : Nat)
    (hmid : mid = beBytes w v) (hv : v < 256 ^ w) :
    readBEAt (pre ++ mid ++ post) pre.length w = .ok v := by
  subst hmid
  have hlen : (pre ++ beBytes w v ++ post).length = pre.length + w + post.length := by
    simp [beBytes_length]; omega
  rw [readBEAt, if_neg (by omega), if_neg (by omega)]
  have hdrop : (pre ++ beBytes w v ++ post).drop pre.length = beBytes w v ++ post := by
    rw [List.append_assoc, List.drop_left]
  rw [hdrop]
  have htake : (beBytes w v ++ post).take w = beBytes w v := by
    rw [List.take_left' (beBytes_length w v)]
  rw [htake, beFold_beBytes w v hv]

theorem takeBE_append (pre post : List Nat) (w v : Nat)
    (hpre : pre = beBytes w v) (hv : v < 256 ^ w) :
    takeBE w (pre ++ post) = .ok (v, post) := by
  subst hpre
  have hlen : (beBytes w v ++ post).length = w + post.length := by
    simp [beBytes_length]
  rw [takeBE, if_neg (by omega), List.take_left' (beBytes_length w v),
    List.drop_left' (beBytes_length w v), beFold_beBytes w v hv]

theorem takeBytes_append (pre post : List Nat) (n : Nat) (hpre : pre.length = n) :
    takeBytes n (pre ++ post) = .ok (pre, post) := by
  have hlen : (pre ++ post).length = n + post.length := by simp [hpre]
  rw [takeBytes, if_neg (by omega), List.take_left' hpre, List.drop_left' hpre]

/-- The lowercase hex digit character (ASCII code) for a nibble, as emitted
by `format!("{:08x}", v)` in `write_u32_as_hex` (`src/utils/mod.rs`). -/
def hexDigitAscii (d : Nat) : Nat :=
  if d < 10 then 48 + d else 87 + d

/-- `write_u32_as_hex`: exactly 8 lowercase hex ASCII characters of the
`u32` value, zero padded, most significant nibble first. -/
def writeHexU32 (v : Nat) : List Nat :=
  let v := v % 2 ^ 32
  [hexDigitAscii (v / 16 ^ 7 % 16), hexDigitAscii (v / 16 ^ 6 % 16),
   hexDigitAscii (v / 16 ^ 5 % 16), hexDigitAscii (v / 16 ^ 4 % 16),
   hexDigitAscii (v / 16 ^ 3 % 16), hexDigitAscii (v / 16 ^ 2 % 16),
   hexDigitAscii (v / 16 % 16), hexDigitAscii (v % 16)]

/-- Value of one hex ASCII character (`hex::FromHex` accepts both cases);
`none` on a non-hex byte. -/
def hexVal (c : Nat) : Option Nat :=
  if 48 ≤ c ∧ c ≤ 57 then some (c - 48)
  else if 97 ≤ c ∧ c ≤ 102 then some (c - 87)
  else if 65 ≤ c ∧ c ≤ 70 then some (c - 55)
  else none

/-- `read_hex_as_u32` (`src/utils/mod.rs`): read exactly 8 bytes
(`UnexpectedEof` when fewer remain), hex-decode them (`ErrorKind::Other` on
a non-hex byte), and interpret the 4 decoded bytes big-endian.  Composing
`Vec::from_hex` with `read_be` is a base-16 fold over the 8 nibbles. -/
def readHexU32 (bytes : List Nat) : Except RErr (Nat × List Nat) := do
  let (raw, rest) ← takeBytes 8 bytes
  match raw.mapM hexVal with
  | none => .error .other
  | some nibbles => .ok (nibbles.foldl (fun a d => a * 16 + d) 0, rest)

theorem hexVal_hexDigitAscii (d : Nat) (h : d < 16) :
    hexVal (hexDigitAscii d) = some d := by
  interval_cases d <;> rfl

theorem readHexU32_writeHexU32 (v : Nat) (rest : List Nat) (hv : v < 2 ^ 32) :
    readHexU32 (writeHexU32 v ++ rest) = .ok (v, rest) := by
  have hmod : v % 2 ^ 32 = v := Nat.mod_eq_of_lt hv
  rw [readHexU32, writeHexU32]
  simp only [hmod]
  rw [takeBytes_append _ rest 8 (by rfl)]
  have h7 : v / 16 ^ 7 % 16 = v / 16 ^ 7 := by
    apply Nat.mod_eq_of_lt
    rw [Nat.div_lt_iff_lt_mul (by norm_num)]
    calc v < 2 ^ 32 := hv
      _ = 16 ^ 7 * 16 := by norm_num
  simp only [Except.bind, bind]
  rw [List.mapM_cons, List.mapM_cons, List.mapM_cons, List.mapM_cons,
    List.mapM_cons, List.mapM_cons, List.mapM_cons, List.mapM_cons]
  rw [hexVal_hexDigitAscii _ (Nat.mod_lt _ (by norm_num)),
    hexVal_hexDigitAscii _ (Nat.mod_lt _ (by norm_num)),
    hexVal_hexDigitAscii _ (Nat.mod_lt _ (by norm_num)),
    hexVal_hexDigitAscii _ (Nat.mod_lt _ (by norm_num)),
    hexVal_hexDigitAscii _ (Nat.mod_lt _ (by norm_num)),
    hexVal_hexDigitAscii _ (Nat.mod_lt _ (by norm_num)),
    hexVal_hexDigitAscii _ (Nat.mod_lt _ (by norm_num)),
    hexVal_hexDigitAscii _ (Nat.mod_lt _ (by norm_num))]
  simp only [List.mapM_nil, Option.pure_def, Option.bind_eq_bind, Option.bind_some,
    Option.some_bind, List.foldl_cons, List.foldl_nil]
  congr 2
  rw [h7]
  have e7 : (16 : Nat) ^ 7 = 268435456 := by norm_num
  have e6 : (16 : Nat) ^ 6 = 16777216 := by norm_num
  have e5 : (16 : Nat) ^ 5 = 1048576 := by norm_num
  have e4 : (16 : Nat) ^ 4 = 65536 := by norm_num
  have e3 : (16 : Nat) ^ 3 = 4096 := by norm_num
  have e2 : (16 : Nat) ^ 2 = 256 := by norm_num
  have e32 : (2 : Nat) ^ 32 = 4294967296 := by norm_num
  rw [e7, e6, e5, e4, e3, e2] at *
  rw [e32] at hv
  omega

/-- A valid Unicode scalar value (the invariant of Rust `char`). -/
def ValidScalar (n : Nat) : Prop :=
  n < 0xd800 ∨ (0xdfff < n ∧ n < 0x110000)

instance (n : Nat) : Decidable (ValidScalar n) := by
  unfold ValidScalar; infer_instance

/-- UTF-8 encoding of one Unicode scalar value (Rust `String` byte layout). -/
def utf8EncodeScalar (v : Nat) : List Nat :=
  if v < 0x80 then [v]
  else if v < 0x800 then [0xc0 + v / 64, 0x80 + v % 64]
  else if v < 0x10000 then [0xe0 + v / 4096, 0x80 + v / 64 % 64, 0x80 + v % 64]
  else [0xf0 + v / 262144, 0x80 + v / 4096 % 64, 0x80 + v / 64 % 64, 0x80 + v % 64]

/-- UTF-8 bytes of a Rust string (list of scalar values). -/
def utf8Encode (s : List Nat) : List Nat :=
  s.flatMap utf8EncodeScalar

/-- Whether a byte is a UTF-8 continuation byte (`10xxxxxx`). -/
def utf8Cont (b : Nat) : Prop := 0x80 ≤ b ∧ b < 0xc0

instance (b : Nat) : Decidable (utf8Cont b) := by
  unfold utf8Cont; infer_instance

/-- One step of strict UTF-8 decoding (`String::from_utf8` semantics:
continuation-byte checks, overlong rejection, surrogate exclusion, upper
bound `0x110000`): given the lead byte and the following bytes, return the
decoded scalar value and how many continuation bytes were consumed, or
`none` on the inputs Rust rejects. -/
def utf8DecodeChar (b0 : Nat) (rest : List Nat) : Option (Nat × Nat) :=
  if b0 < 0x80 then some (b0, 0)
  else if b0 < 0xc0 then none
  else if b0 < 0xe0 then
    match rest with
    | b1 :: _ =>
      let r := (b0 - 0xc0) * 64 + (b1 - 0x80)
      if utf8Cont b1 ∧ 0x80 ≤ r then some (r, 1) else none
    | _ => none
  else if b0 < 0xf0 then
    match rest with
    | b1 :: b2 :: _ =>
      let r := (b0 - 0xe0) * 4096 + (b1 - 0x80) * 64 + (b2 - 0x80)
      if utf8Cont b1 ∧ utf8Cont b2 ∧ 0x800 ≤ r ∧ ¬(0xd800 ≤ r ∧ r ≤ 0xdfff) then
        some (r, 2)
      else none
    | _ => none
  else if b0 < 0xf8 then
    match rest with
    | b1 :: b2 :: b3 :: _ =>
      let r := (b0 - 0xf0) * 262144 + (b1 - 0x80) * 4096 + (b2 - 0x80) * 64 + (b3 - 0x80)
      if utf8Cont b1 ∧ utf8Cont b2 ∧ utf8Cont b3 ∧ 0x10000 ≤ r ∧ r < 0x110000 then
        some (r, 3)
      else none
    | _ => none
  else none

/-- Strict UTF-8 decoding of a byte list into scalar values; `none`
exactly on the inputs `String::from_utf8` rejects.  The recursion is
bounded by a fuel argument (decoding one scalar consumes at least one
byte, so `l.length` steps always suffice). -/
def utf8DecodeAux : Nat → List Nat → Option (List Nat)
  | _, [] => some []
  | 0, _ :: _ => none
  | fuel + 1, b0 :: rest =>
    match utf8DecodeChar b0 rest with
    | none => none
    | some (r, k) => (utf8DecodeAux fuel (rest.drop k)).map (r :: ·)

/-- Strict UTF-8 decoding (`String::from_utf8` semantics). -/
def utf8Decode (l : List Nat) : Option (List Nat) :=
  utf8DecodeAux l.length l

theorem utf8DecodeAux_nil (fuel : Nat) : utf8DecodeAux fuel [] = some [] := by
  cases fuel <;> rfl

theorem utf8DecodeAux_cons_ok (fuel b0 : Nat) (rest : List Nat) (r k : Nat)
    (h : utf8DecodeChar b0 rest = some (r, k)) :
    utf8DecodeAux (fuel + 1) (b0 :: rest) =
      (utf8DecodeAux fuel (rest.drop k)).map (r :: ·) := by
  rw [utf8DecodeAux, h]

theorem utf8DecodeChar_one (b0 : Nat) (rest : List Nat) (h : b0 < 0x80) :
    utf8DecodeChar b0 rest = some (b0, 0) := by
  simp [utf8DecodeChar, h]

theorem utf8DecodeChar_two (b0 b1 : Nat) (rest : List Nat)
    (h1 : 0xc0 ≤ b0) (h2 : b0 < 0xe0) (hc : utf8Cont b1)
    (hr : 0x80 ≤ (b0 - 0xc0) * 64 + (b1 - 0x80)) :
    utf8DecodeChar b0 (b1 :: rest) = some ((b0 - 0xc0) * 64 + (b1 - 0x80), 1) := by
  unfold utf8DecodeChar
  rw [if_neg (by omega), if_neg (by omega), if_pos h2]
  exact if_pos ⟨hc, hr⟩

theorem utf8DecodeChar_three (b0 b1 b2 : Nat) (rest : List Nat)
    (h1 : 0xe0 ≤ b0) (h2 : b0 < 0xf0) (hc1 : utf8Cont b1) (hc2 : utf8Cont b2)
    (hr : 0x800 ≤ (b0 - 0xe0) * 4096 + (b1 - 0x80) * 64 + (b2 - 0x80))
    (hs : ¬(0xd800 ≤ (b0 - 0xe0) * 4096 + (b1 - 0x80) * 64 + (b2 - 0x80) ∧
        (b0 - 0xe0) * 4096 + (b1 - 0x80) * 64 + (b2 - 0x80) ≤ 0xdfff)) :
    utf8DecodeChar b0 (b1 :: b2 :: rest) =
      some ((b0 - 0xe0) * 4096 + (b1 - 0x80) * 64 + (b2 - 0x80), 2) := by
  unfold utf8DecodeChar
  rw [if_neg (by omega), if_neg (by omega), if_neg (by omega), if_pos h2]
  exact if_pos ⟨hc1, hc2, hr, hs⟩

theorem utf8DecodeChar_four (b0 b1 b2 b3 : Nat) (rest : List Nat)
    (h1 : 0xf0 ≤ b0) (h2 : b0 < 0xf8)
    (hc1 : utf8Cont b1) (hc2 : utf8Cont b2) (hc3 : utf8Cont b3)
    (hlo : 0x10000 ≤ (b0 - 0xf0) * 262144 + (b1 - 0x80) * 4096 + (b2 - 0x80) * 64 + (b3 - 0x80))
    (hhi : (b0 - 0xf0) * 262144 + (b1 - 0x80) * 4096 + (b2 - 0x80) * 64 + (b3 - 0x80)
        < 0x110000) :
    utf8DecodeChar b0 (b1 :: b2 :: b3 :: rest) =
      some ((b0 - 0xf0) * 262144 + (b1 - 0x80) * 4096 + (b2 - 0x80) * 64 + (b3 - 0x80), 3) := by
  unfold utf8DecodeChar
  rw [if_neg (by omega), if_neg (by omega), if_neg (by omega), if_neg (by omega), if_pos h2]
  exact if_pos ⟨hc1, hc2, hc3, hlo, hhi⟩

theorem utf8DecodeChar_encode (v : Nat) (hv : ValidScalar v) (post : List Nat) :
    ∃ b0 tail, utf8EncodeScalar v = b0 :: tail ∧
      utf8DecodeChar b0 (tail ++ post) = some (v, tail.length) := by
  have hv' : v < 0x110000 := by unfold ValidScalar at hv; omega
  rw [utf8EncodeScalar]
  by_cases h1 : v < 0x80
  · refine ⟨v, [], by rw [if_pos h1], ?_⟩
    rw [utf8DecodeChar_one _ _ h1]
    rfl
  · by_cases h2 : v < 0x800
    · refine ⟨0xc0 + v / 64, [0x80 + v % 64], by rw [if_neg h1, if_pos h2], ?_⟩
      simp only [List.cons_append, List.nil_append]
      rw [utf8DecodeChar_two (0xc0 + v / 64) (0x80 + v % 64) post (by omega) (by omega)
        (by unfold utf8Cont; omega) (by omega)]
      have hval : (0xc0 + v / 64 - 0xc0) * 64 + (0x80 + v % 64 - 0x80) = v := by omega
      rw [hval]
      rfl
    · by_cases h3 : v < 0x10000
      · refine ⟨0xe0 + v / 4096, [0x80 + v / 64 % 64, 0x80 + v % 64],
          by rw [if_neg h1, if_neg h2, if_pos h3], ?_⟩
        simp only [List.cons_append, List.nil_append]
        have hval : (0xe0 + v / 4096 - 0xe0) * 4096 + (0x80 + v / 64 % 64 - 0x80) * 64 +
            (0x80 + v % 64 - 0x80) = v := by omega
        have hsur : ¬(0xd800 ≤ v ∧ v ≤ 0xdfff) := by unfold ValidScalar at hv; omega
        rw [utf8DecodeChar_three (0xe0 + v / 4096) (0x80 + v / 64 % 64) (0x80 + v % 64) post
          (by omega) (by omega) (by unfold utf8Cont; omega) (by unfold utf8Cont; omega)
          (by rw [hval]; omega) (by rw [hval]; exact hsur)]
        rw [hval]
        rfl
      · refine ⟨0xf0 + v / 262144, [0x80 + v / 4096 % 64, 0x80 + v / 64 % 64, 0x80 + v % 64],
          by rw [if_neg h1, if_neg h2, if_neg h3], ?_⟩
        simp only [List.cons_append, List.nil_append]
        have hval : (0xf0 + v / 262144 - 0xf0) * 262144 + (0x80 + v / 4096 % 64 - 0x80) * 4096 +
            (0x80 + v / 64 % 64 - 0x80) * 64 + (0x80 + v % 64 - 0x80) = v := by omega
        rw [utf8DecodeChar_four (0xf0 + v / 262144) (0x80 + v / 4096 % 64)
          (0x80 + v / 64 % 64) (0x80 + v % 64) post (by omega) (by omega)
          (by unfold utf8Cont; omega) (by unfold utf8Cont; omega) (by unfold utf8Cont; omega)
          (by rw [hval]; omega) (by rw [hval]; exact hv')]
        rw [hval]
        rfl

theorem utf8DecodeAux_encode (s : List Nat) (fuel : Nat)
    (hf : (utf8Encode s).length ≤ fuel) (hs : ∀ v ∈ s, ValidScalar v) :
    utf8DecodeAux fuel (utf8Encode s) = some s := by
  induction s generalizing fuel with
  | nil => exact utf8DecodeAux_nil fuel
  | cons v t ih =>
    have hv : ValidScalar v := hs v (by simp)
    obtain ⟨b0, tail, henc, hdec⟩ := utf8DecodeChar_encode v hv (utf8Encode t)
    have hlen : utf8Encode (v :: t) = b0 :: (tail ++ utf8Encode t) := by
      show utf8EncodeScalar v ++ utf8Encode t = _
      rw [henc, List.cons_append]
    rw [hlen] at hf ⊢
    obtain ⟨f, rfl⟩ : ∃ f, fuel = f + 1 := by
      cases fuel
      · simp at hf
      · exact ⟨_, rfl⟩
    rw [utf8DecodeAux_cons_ok f b0 _ v tail.length hdec, List.drop_left]
    have hft : (utf8Encode t).length ≤ f := by
      simp at hf
      omega
    rw [ih f hft (fun x hx => hs x (by simp [hx]))]
    rfl

theorem utf8Decode_encode (s : List Nat) (hs : ∀ v ∈ s, ValidScalar v) :
    utf8Decode (utf8Encode s) = some s :=
  utf8DecodeAux_encode s (utf8Encode s).length (Nat.le_refl _) hs

/-- `parse_string` (`src/utils/mod.rs`): position of the first NUL byte
(`0` when there is none), take that prefix and decode it as UTF-8.
`from_utf8_lossy` is modelled by strict decoding; the lossy
replacement-character behaviour on invalid bytes (never reached by the
theorems below) is represented by the empty result. -/
def parse_string (bytes : List Nat) : List Nat :=
  let pos := (bytes.findIdx? (· = 0)).getD 0
  (utf8Decode (bytes.take pos)).getD []

/-- `parse_strings` (`src/utils/mod.rs`): split on NUL bytes, take the
first `count` chunks, decode each as UTF-8 (lossy modelled as above). -/
def parse_strings (bytes : List Nat) (count : Nat) : List (List Nat) :=
  ((bytes.splitOn 0).take count).map (fun b => (utf8Decode b).getD [])

/-- The on-disk type ids of `Type` in `src/header/index.rs` (named `TType`
here because `Type` is reserved in Lean). -/
inductive TType where
  | Null
  | Char
  | Int8
  | Int16
  | Int32
  | Int64
  | String
  | Bin
  | StringArray
  | I18nstring
  deriving Repr, DecidableEq

/-- `ToPrimitive` for `Type`: the discriminant values 0–9. -/
def TType.toU32 : TType → Nat
  | .Null => 0
  | .Char => 1
  | .Int8 => 2
  | .Int16 => 3
  | .Int32 => 4
  | .Int64 => 5
  | .String => 6
  | .Bin => 7
  | .StringArray => 8
  | .I18nstring => 9

/-- `Type::from_u32(..).unwrap_or_else(|| { println!("Unknown type"); Null })`
in `Index::read`: unknown type ids are tolerated and mapped to `Null`. -/
def TType.fromU32 (n : Nat) : TType :=
  match n with
  | 0 => .Null
  | 1 => .Char
  | 2 => .Int8
  | 3 => .Int16
  | 4 => .Int32
  | 5 => .Int64
  | 6 => .String
  | 7 => .Bin
  | 8 => .StringArray
  | 9 => .I18nstring
  | _ => .Null

/-- `RType` from `src/header/index.rs`.  Rust `char` is modelled by its
scalar value, Rust `String` by its list of scalar values, `Vec<u8>` by a
list of byte values. -/
inductive RType where
  | Null
  | Char (c : Nat)
  | Int8 (n : Nat)
  | Int8Array (v : List Nat)
  | Int16 (n : Nat)
  | Int16Array (v : List Nat)
  | Int32 (n : Nat)
  | Int32Array (v : List Nat)
  | Int64 (n : Nat)
  | Int64Array (v : List Nat)
  | String (s : List Nat)
  | Bin (b : List Nat)
  | StringArray (v : List (List Nat))
  | I18nstring (s : List Nat)
  deriving Repr, DecidableEq

/-- Decimal rendering of an integer tag value (`n.to_string()`), as a list
of ASCII scalar values. -/
def decString (n : Nat) : List Nat :=
  (Nat.repr n).data.map Char.toNat

/-- Lowercase hex rendering without leading zeros (one element of the
`format!("{:x?}", b)` debug dump used by `as_string` on `Bin`). -/
def hexString (n : Nat) : List Nat :=
  (Nat.toDigits 16 n).map Char.toNat

/-- `format!("{:x?}", b)` on a `Vec<u8>`: `[` then the comma-separated
lowercase hex values then `]`. -/
def binDebugString (b : List Nat) : List Nat :=
  [91] ++ (List.intercalate [44, 32] (b.map hexString)) ++ [93]

/-- `RType::as_string` (`src/header/index.rs`). -/
def RType.as_string : RType → Option (List Nat)
  | .Null => some []
  | .Bin b => some (binDebugString b)
  | .Char c => some [c]
  | .String s => some s
  | .I18nstring s => some s
  | .Int8 n => some (decString n)
  | .Int16 n => some (decString n)
  | .Int32 n => some (decString n)
  | .Int64 n => some (decString n)
  | .StringArray a => some (List.intercalate [44] a)
  | _ => none

/-- `RType::as_string_array`. -/
def RType.as_string_array : RType → Option (List (List Nat))
  | .StringArray a => some a
  | _ => none

/-- `RType::as_u64`. -/
def RType.as_u64 : RType → Option Nat
  | .Int8 n => some n
  | .Int16 n => some n
  | .Int32 n => some n
  | .Int64 n => some n
  | _ => none

/-- `RType::as_u64_array`. -/
def RType.as_u64_array : RType → Option (List Nat)
  | .Int8Array a => some a
  | .Int16Array a => some a
  | .Int32Array a => some a
  | .Int64Array a => some a
  | _ => none

/-- `RType::as_u32`: note that `Int64` is not accepted, regardless of its
value. -/
def RType.as_u32 : RType → Option Nat
  | .Int8 n => some n
  | .Int16 n => some n
  | .Int32 n => some n
  | _ => none

/-- `RType::as_i64`: note that `Int64` is not accepted, regardless of its
value. -/
def RType.as_i64 : RType → Option Int
  | .Int8 n => some (Int.ofNat n)
  | .Int16 n => some (Int.ofNat n)
  | .Int32 n => some (Int.ofNat n)
  | _ => none

/-- `RType::as_u32_array`. -/
def RType.as_u32_array : RType → Option (List Nat)
  | .Int8Array a => some a
  | .Int16Array a => some a
  | .Int32Array a => some a
  | _ => none

/-- `RType::as_u16`. -/
def RType.as_u16 : RType → Option Nat
  | .Int8 n => some n
  | .Int16 n => some n
  | _ => none

/-- `RType::as_u16_array`. -/
def RType.as_u16_array : RType → Option (List Nat)
  | .Int8Array a => some a
  | .Int16Array a => some a
  | _ => none

/-- `RType::as_u8`. -/
def RType.as_u8 : RType → Option Nat
  | .Int8 n => some n
  | _ => none

/-- `RType::as_u8_array`. -/
def RType.as_u8_array : RType → Option (List Nat)
  | .Int8Array a => some a
  | _ => none

/-- `RType::as_char`. -/
def RType.as_char : RType → Option Nat
  | .Char c => some c
  | _ => none

/-- `Index` (`src/header/index.rs`); the tag namespace parameter `T` is
modelled by the numeric tag id. -/
structure Index where
  tag : Nat
  itype : TType
  offset : Nat
  count : Nat
  deriving Repr, DecidableEq

/-- `Index::from` (`src/header/index.rs`), including its mapping of
`RType::Bin` to type id `Type::String`. -/
def Index.from (tag : Nat) (rtype : RType) (offset count : Nat) : Index :=
  let itype := match rtype with
    | .Null => TType.Null
    | .Char _ => TType.Char
    | .Int8 _ | .Int8Array _ => TType.Int8
    | .Int16 _ | .Int16Array _ => TType.Int16
    | .Int32 _ | .Int32Array _ => TType.Int32
    | .Int64 _ | .Int64Array _ => TType.Int64
    | .String _ => TType.String
    | .Bin _ => TType.String
    | .StringArray _ => TType.StringArray
    | .I18nstring _ => TType.I18nstring
  { tag := tag, itype := itype, offset := offset, count := count }

/-- `IndexWriter::write_index`: four big-endian `u32` fields (`as u32`
casts are the implicit truncation of `beBytes`). -/
def writeIndexBytes (i : Index) : List Nat :=
  beBytes 4 i.tag ++ beBytes 4 i.itype.toU32 ++ beBytes 4 i.offset ++ beBytes 4 i.count

/-- `Index::read`: four big-endian `u32` fields; the tag namespace is
modelled by the id itself (every id considered known; on the real enums
`from_u32` maps unknown ids to the namespace default), the type id goes
through `TType.fromU32`. -/
def indexRead (bytes : List Nat) : Except RErr (Index × List Nat) := do
  let (tagId, r1) ← takeBE 4 bytes
  let (typeId, r2) ← takeBE 4 r1
  let (offset, r3) ← takeBE 4 r2
  let (count, r4) ← takeBE 4 r3
  .ok ({ tag := tagId, itype := TType.fromU32 typeId, offset := offset, count := count }, r4)

/-- The entry-count loop of `IndexArray::read`, without the final sort. -/
def readIndexes : Nat → List Nat → Except RErr (List Index × List Nat)
  | 0, bytes => .ok ([], bytes)
  | n + 1, bytes => do
    let (i, r1) ← indexRead bytes
    let (is, r2) ← readIndexes n r1
    .ok (i :: is, r2)

/-- `IndexArray::read`: parse `nindex` entries then stable-sort by offset
(`sort_by_key(|k| k.offset)`); Rust's sort is stable, and a stable sort by
key is a unique function of its input, here realised by the (stable)
insertion sort. -/
def indexArrayRead (nindex : Nat) (bytes : List Nat) : Except RErr (List Index × List Nat) := do
  let (is, rest) ← readIndexes nindex bytes
  .ok (is.insertionSort (fun a b => a.offset ≤ b.offset), rest)

/-- The slice `&data[ps..ps2]`: panics (rather than erroring) when the
bounds are not `ps ≤ ps2 ≤ data.len()`. -/
def sliceAt (data : List Nat) (ps ps2 : Nat) : Except RErr (List Nat) :=
  if ps ≤ ps2 ∧ ps2 ≤ data.length then .ok ((data.drop ps).take (ps2 - ps))
  else .error .panic

/-- `indexes[i + 1].offset` used by the variable-length branches of
`tags_from_raw`: panics when `i` is the last index. -/
def nextOffset : List Index → Except RErr Nat
  | [] => .error .panic
  | n :: _ => .ok n.offset

/-- The element loop of `extract` (`src/header/mod.rs`) for `count`
elements of width `w` starting at `position`; Rust reads element `i` at
`position + i * size_of::<T>()`, which this recursion reproduces with a
running position. -/
def readBEListAt (data : List Nat) (pos w : Nat) : Nat → Except RErr (List Nat)
  | 0 => .ok []
  | c + 1 => do
    let x ← readBEAt data pos w
    let xs ← readBEListAt data (pos + w) w c
    .ok (x :: xs)

/-- `extract` (`src/header/mod.rs`): `count > 1` decodes an array,
otherwise a single scalar. -/
def extract (data : List Nat) (position count w : Nat)
    (single : Nat → RType) (multiple : List Nat → RType) : Except RErr RType :=
  if count > 1 then (readBEListAt data position w count).map multiple
  else (readBEAt data position w).map single

/-- The body of `Tags::tags_from_raw` (`src/header/mod.rs`) for one index
entry, given the following (offset-sorted) entries for the
`indexes[i + 1]` accesses of the variable-length branches. -/
def readTagValue (item : Index) (rest : List Index) (data : List Nat) :
    Except RErr RType :=
  match item.itype with
  | .Null => .ok RType.Null
  | .Char => do
    let cByte ← readBEAt data item.offset 4
    .ok (RType.Char (if ValidScalar cByte then cByte else 0))
  | .Int8 => extract data item.offset item.count 1 RType.Int8 RType.Int8Array
  | .Int16 => extract data item.offset item.count 2 RType.Int16 RType.Int16Array
  | .Int32 => extract data item.offset item.count 4 RType.Int32 RType.Int32Array
  | .Int64 => extract data item.offset item.count 8 RType.Int64 RType.Int64Array
  | .String => do
    let ps2 ← nextOffset rest
    let sl ← sliceAt data item.offset ps2
    .ok (RType.String (parse_string sl))
  | .Bin => do
    let sl ← sliceAt data item.offset (item.offset + item.count)
    .ok (RType.Bin sl)
  | .StringArray => do
    let ps2 ← nextOffset rest
    let sl ← sliceAt data item.offset ps2
    .ok (RType.StringArray (parse_strings sl item.count))
  | .I18nstring => do
    let ps2 ← nextOffset rest
    let sl ← sliceAt data item.offset ps2
    .ok (RType.I18nstring (parse_string sl))

/-- `Tags::tags_from_raw` (`src/header/mod.rs`): decode every index entry
against the data blob.  The Rust code collects into a `HashMap`; the model
returns the association list in index order. -/
def tagsFromRaw : List Index → List Nat → Except RErr (List (Nat × RType))
  | [], _ => .ok []
  | item :: rest, data => do
    let v ← readTagValue item rest data
    let tail ← tagsFromRaw rest data
    .ok ((item.tag, v) :: tail)

/-- The data bytes one `RType` value contributes to the data blob in
`TagsWrite::write_header`. -/
def valueBytes : RType → List Nat
  | .Null => []
  | .Char c => beBytes 4 c
  | .Int8 n => beBytes 1 n
  | .Int16 n => beBytes 2 n
  | .Int32 n => beBytes 4 n
  | .Int64 n => beBytes 8 n
  | .String s => utf8Encode s ++ [0]
  | .Bin b => b
  | .StringArray v => v.flatMap (fun s => utf8Encode s ++ [0])
  | .I18nstring s => utf8Encode s ++ [0]
  | .Int8Array v => v.flatMap (beBytes 1)
  | .Int16Array v => v.flatMap (beBytes 2)
  | .Int32Array v => v.flatMap (beBytes 4)
  | .Int64Array v => v.flatMap (beBytes 8)

/-- The index entry one store entry contributes in
`TagsWrite::write_header`: `Null` uses offset `0` and count `1`; arrays
and string arrays use their length as count; everything else count `1`. -/
def writeEntryIndex (tag : Nat) (v : RType) (current : Nat) : Index :=
  match v with
  | .Null => Index.from tag v 0 1
  | .Int8Array a => Index.from tag v current a.length
  | .Int16Array a => Index.from tag v current a.length
  | .Int32Array a => Index.from tag v current a.length
  | .Int64Array a => Index.from tag v current a.length
  | .StringArray a => Index.from tag v current a.length
  | _ => Index.from tag v current 1

/-- The entry loop of `TagsWrite::write_header`: build the index table and
the data blob, assigning each entry the current data length as offset. -/
def buildEntries : List (Nat × RType) → Nat → List Index × List Nat
  | [], _ => ([], [])
  | (tag, v) :: rest, pos =>
    let (idxs, data) := buildEntries rest (pos + (valueBytes v).length)
    (writeEntryIndex tag v pos :: idxs, valueBytes v ++ data)

/-- `MAGIC_HEADER` (`src/header/lead.rs`). -/
def MAGIC_HEADER : List Nat := [142, 173, 232, 1]

/-- `HeaderLead::write`: magic, 4 reserved zero bytes, `nindex` and
`hsize` as big-endian `u32`. -/
def headerLeadBytes (nindex hsize : Nat) : List Nat :=
  MAGIC_HEADER ++ [0, 0, 0, 0] ++ beBytes 4 nindex ++ beBytes 4 hsize

/-- `TagsWrite::write_header` (`src/header/mod.rs`): header lead with
`nindex = |store|` and `hsize = data.len() as u32`, then the index table,
the data blob, and zero padding to the next 8-byte boundary computed from
`hsize`. -/
def write_header (tags : List (Nat × RType)) : List Nat :=
  let build := buildEntries tags 0
  let size := build.2.length % 2 ^ 32
  headerLeadBytes tags.length size
    ++ (build.1.map writeIndexBytes).flatten ++ build.2
    ++ List.replicate (align_n_bytes size 8) 0

/-- `HeaderLead::read`: validate the magic (`ErrorKind::Other` on
mismatch), skip 4 reserved bytes, read `nindex` and `hsize`. -/
def headerLeadRead (bytes : List Nat) : Except RErr (Nat × Nat × List Nat) := do
  let (magic, r1) ← takeBytes 4 bytes
  if magic = MAGIC_HEADER then do
    let (_reserved, r2) ← takeBytes 4 r1
    let (nindex, r3) ← takeBE 4 r2
    let (hsize, r4) ← takeBE 4 r3
    .ok (nindex, hsize, r4)
  else .error .other

/-- One tag-store read as performed by `RPMFile::read`
(`src/rpm/file.rs`): `HeaderLead::read`, `IndexArray::read` (parse plus
stable sort by offset), then `Tags::read` = read exactly `hsize` bytes
and `tags_from_raw`. -/
def read_store (bytes : List Nat) : Except RErr (List (Nat × RType)) := do
  let (nindex, hsize, r1) ← headerLeadRead bytes
  let (idxs, r2) ← indexArrayRead nindex r1
  let (data, _) ← takeBytes hsize r2
  tagsFromRaw idxs data

/-- Values whose `write_header`/`tags_from_raw` round trip is claimed by
the amended round-trip law: `Null`, valid `Char`, integer scalars within
their widths, and integer arrays of at least two in-range elements (one
per-variant width bound each, lengths within `u32`).  `String`,
`StringArray`, `I18nstring`, `Bin`, and singleton or empty arrays are
excluded: the counterexamples show they do not round trip. -/
def RTOk : RType → Prop
  | .Null => True
  | .Char c => ValidScalar c
  | .Int8 n => n < 2 ^ 8
  | .Int16 n => n < 2 ^ 16
  | .Int32 n => n < 2 ^ 32
  | .Int64 n => n < 2 ^ 64
  | .Int8Array v => 2 ≤ v.length ∧ v.length < 2 ^ 32 ∧ ∀ x ∈ v, x < 2 ^ 8
  | .Int16Array v => 2 ≤ v.length ∧ v.length < 2 ^ 32 ∧ ∀ x ∈ v, x < 2 ^ 16
  | .Int32Array v => 2 ≤ v.length ∧ v.length < 2 ^ 32 ∧ ∀ x ∈ v, x < 2 ^ 32
  | .Int64Array v => 2 ≤ v.length ∧ v.length < 2 ^ 32 ∧ ∀ x ∈ v, x < 2 ^ 64
  | _ => False

theorem readBEListAt_append (vec : List Nat) (w : Nat) (pre post : List Nat)
    (hw : ∀ x ∈ vec, x < 256 ^ w) :
    readBEListAt (pre ++ vec.flatMap (beBytes w) ++ post) pre.length w vec.length = .ok vec := by
  induction vec generalizing pre with
  | nil => rfl
  | cons x t ih =>
    rw [List.length_cons, readBEListAt]
    have hx : x < 256 ^ w := hw x (by simp)
    have hdata : pre ++ (x :: t).flatMap (beBytes w) ++ post
        = pre ++ beBytes w x ++ (t.flatMap (beBytes w) ++ post) := by
      simp [List.append_assoc]
    rw [hdata, readBEAt_append pre (beBytes w x) _ w x rfl hx]
    have hdata2 : pre ++ beBytes w x ++ (t.flatMap (beBytes w) ++ post)
        = (pre ++ beBytes w x) ++ t.flatMap (beBytes w) ++ post := by
      simp [List.append_assoc]
    have hpos : pre.length + w = (pre ++ beBytes w x).length := by
      simp [beBytes_length]
    rw [hdata2, hpos, ih (pre ++ beBytes w x) (fun y hy => hw y (by simp [hy]))]
    rfl

theorem readTagValue_writeEntryIndex (tag : Nat) (v : RType) (hv : RTOk v)
    (pre post : List Nat) (rest : List Index) :
    readTagValue (writeEntryIndex tag v pre.length) rest (pre ++ valueBytes v ++ post)
      = .ok v := by
  cases v with
  | Null => rfl
  | Char c =>
    have hv' : ValidScalar c := hv
    have hrange : c < 0xd800 ∨ (0xdfff < c ∧ c < 0x110000) := hv'
    have hc : c < 256 ^ 4 := by norm_num; omega
    show readTagValue { tag := tag, itype := .Char, offset := pre.length, count := 1 }
      rest (pre ++ beBytes 4 c ++ post) = .ok (.Char c)
    rw [readTagValue]
    simp only
    rw [readBEAt_append pre (beBytes 4 c) post 4 c rfl hc]
    simp only [Except.bind, bind]
    rw [if_pos hv']
  | Int8 n =>
    have hb : n < 2 ^ 8 := hv
    show readTagValue { tag := tag, itype := .Int8, offset := pre.length, count := 1 }
      rest (pre ++ beBytes 1 n ++ post) = .ok (.Int8 n)
    rw [readTagValue]
    simp only [extract]
    rw [if_neg (by decide : ¬(1 > 1))]
    rw [readBEAt_append pre (beBytes 1 n) post 1 n rfl (by norm_num at hb ⊢; exact hb)]
    rfl
  | Int16 n =>
    have hb : n < 2 ^ 16 := hv
    show readTagValue { tag := tag, itype := .Int16, offset := pre.length, count := 1 }
      rest (pre ++ beBytes 2 n ++ post) = .ok (.Int16 n)
    rw [readTagValue]
    simp only [extract]
    rw [if_neg (by decide : ¬(1 > 1))]
    rw [readBEAt_append pre (beBytes 2 n) post 2 n rfl (by norm_num at hb ⊢; exact hb)]
    rfl
  | Int32 n =>
    have hb : n < 2 ^ 32 := hv
    show readTagValue { tag := tag, itype := .Int32, offset := pre.length, count := 1 }
      rest (pre ++ beBytes 4 n ++ post) = .ok (.Int32 n)
    rw [readTagValue]
    simp only [extract]
    rw [if_neg (by decide : ¬(1 > 1))]
    rw [readBEAt_append pre (beBytes 4 n) post 4 n rfl (by norm_num at hb ⊢; exact hb)]
    rfl
  | Int64 n =>
    have hb : n < 2 ^ 64 := hv
    show readTagValue { tag := tag, itype := .Int64, offset := pre.length, count := 1 }
      rest (pre ++ beBytes 8 n ++ post) = .ok (.Int64 n)
    rw [readTagValue]
    simp only [extract]
    rw [if_neg (by decide : ¬(1 > 1))]
    rw [readBEAt_append pre (beBytes 8 n) post 8 n rfl (by norm_num at hb ⊢; exact hb)]
    rfl
  | Int8Array a =>
    obtain ⟨h2, hlen, hb⟩ := (hv : 2 ≤ a.length ∧ a.length < 2 ^ 32 ∧ ∀ x ∈ a, x < 2 ^ 8)
    show readTagValue { tag := tag, itype := .Int8, offset := pre.length, count := a.length }
      rest (pre ++ a.flatMap (beBytes 1) ++ post) = .ok (.Int8Array a)
    rw [readTagValue]
    simp only [extract]
    rw [if_pos (show a.length > 1 by omega)]
    rw [readBEListAt_append a 1 pre post (by norm_num at hb ⊢; exact hb)]
    rfl
  | Int16Array a =>
    obtain ⟨h2, hlen, hb⟩ := (hv : 2 ≤ a.length ∧ a.length < 2 ^ 32 ∧ ∀ x ∈ a, x < 2 ^ 16)
    show readTagValue { tag := tag, itype := .Int16, offset := pre.length, count := a.length }
      rest (pre ++ a.flatMap (beBytes 2) ++ post) = .ok (.Int16Array a)
    rw [readTagValue]
    simp only [extract]
    rw [if_pos (show a.length > 1 by omega)]
    rw [readBEListAt_append a 2 pre post (by norm_num at hb ⊢; exact hb)]
    rfl
  | Int32Array a =>
    obtain ⟨h2, hlen, hb⟩ := (hv : 2 ≤ a.length ∧ a.length < 2 ^ 32 ∧ ∀ x ∈ a, x < 2 ^ 32)
    show readTagValue { tag := tag, itype := .Int32, offset := pre.length, count := a.length }
      rest (pre ++ a.flatMap (beBytes 4) ++ post) = .ok (.Int32Array a)
    rw [readTagValue]
    simp only [extract]
    rw [if_pos (show a.length > 1 by omega)]
    rw [readBEListAt_append a 4 pre post (by norm_num at hb ⊢; exact hb)]
    rfl
  | Int64Array a =>
    obtain ⟨h2, hlen, hb⟩ := (hv : 2 ≤ a.length ∧ a.length < 2 ^ 32 ∧ ∀ x ∈ a, x < 2 ^ 64)
    show readTagValue { tag := tag, itype := .Int64, offset := pre.length, count := a.length }
      rest (pre ++ a.flatMap (beBytes 8) ++ post) = .ok (.Int64Array a)
    rw [readTagValue]
    simp only [extract]
    rw [if_pos (show a.length > 1 by omega)]
    rw [readBEListAt_append a 8 pre post (by norm_num at hb ⊢; exact hb)]
    rfl
  | String s => exact absurd hv (by simp [RTOk])
  | Bin b => exact absurd hv (by simp [RTOk])
  | StringArray a => exact absurd hv (by simp [RTOk])
  | I18nstring s => exact absurd hv (by simp [RTOk])

/-- Index entries whose decoding does not consult the following index
entry (every type id except the three variable-length ones). -/
def FixedType (i : Index) : Prop :=
  i.itype ≠ .String ∧ i.itype ≠ .StringArray ∧ i.itype ≠ .I18nstring

theorem readTagValue_rest_irrel (i : Index) (rest : List Index) (data : List Nat)
    (h : FixedType i) :
    readTagValue i rest data = readTagValue i [] data := by
  obtain ⟨h1, h2, h3⟩ := h
  unfold readTagValue
  cases hi : i.itype <;> simp_all

/-- Proof device (not from the source): the pair an index entry decodes to. -/
def decPair (data : List Nat) (i : Index) : Nat × RType :=
  (i.tag, ((readTagValue i [] data).toOption).getD .Null)

theorem tagsFromRaw_map (idxs : List Index) (data : List Nat)
    (h : ∀ i ∈ idxs, FixedType i ∧ ∃ v, readTagValue i [] data = .ok v) :
    tagsFromRaw idxs data = .ok (idxs.map (decPair data)) := by
  induction idxs with
  | nil => rfl
  | cons i t ih =>
    obtain ⟨hf, v, hv⟩ := h i (by simp)
    rw [tagsFromRaw, readTagValue_rest_irrel i t data hf, hv,
      ih (fun j hj => h j (by simp [hj]))]
    simp [decPair, hv, Except.bind, bind, Except.toOption]

theorem writeEntryIndex_tag (t : Nat) (v : RType) (c : Nat) :
    (writeEntryIndex t v c).tag = t := by
  cases v <;> rfl

theorem writeEntryIndex_fixed (t : Nat) (v : RType) (c : Nat) (hv : RTOk v) :
    FixedType (writeEntryIndex t v c) := by
  cases v with
  | Null => exact ⟨by simp [writeEntryIndex, Index.from], by simp [writeEntryIndex, Index.from],
      by simp [writeEntryIndex, Index.from]⟩
  | Char c => exact ⟨by simp [writeEntryIndex, Index.from], by simp [writeEntryIndex, Index.from],
      by simp [writeEntryIndex, Index.from]⟩
  | Int8 n => exact ⟨by simp [writeEntryIndex, Index.from], by simp [writeEntryIndex, Index.from],
      by simp [writeEntryIndex, Index.from]⟩
  | Int16 n => exact ⟨by simp [writeEntryIndex, Index.from], by simp [writeEntryIndex, Index.from],
      by simp [writeEntryIndex, Index.from]⟩
  | Int32 n => exact ⟨by simp [writeEntryIndex, Index.from], by simp [writeEntryIndex, Index.from],
      by simp [writeEntryIndex, Index.from]⟩
  | Int64 n => exact ⟨by simp [writeEntryIndex, Index.from], by simp [writeEntryIndex, Index.from],
      by simp [writeEntryIndex, Index.from]⟩
  | Int8Array a => exact ⟨by simp [writeEntryIndex, Index.from],
      by simp [writeEntryIndex, Index.from], by simp [writeEntryIndex, Index.from]⟩
  | Int16Array a => exact ⟨by simp [writeEntryIndex, Index.from],
      by simp [writeEntryIndex, Index.from], by simp [writeEntryIndex, Index.from]⟩
  | Int32Array a => exact ⟨by simp [writeEntryIndex, Index.from],
      by simp [writeEntryIndex, Index.from], by simp [writeEntryIndex, Index.from]⟩
  | Int64Array a => exact ⟨by simp [writeEntryIndex, Index.from],
      by simp [writeEntryIndex, Index.from], by simp [writeEntryIndex, Index.from]⟩
  | String s => exact absurd hv (by simp [RTOk])
  | Bin b => exact absurd hv (by simp [RTOk])
  | StringArray a => exact absurd hv (by simp [RTOk])
  | I18nstring s => exact absurd hv (by simp [RTOk])

theorem buildEntries_spec (s : List (Nat × RType)) (pre post : List Nat)
    (hs : ∀ p ∈ s, RTOk p.2) :
    ((buildEntries s pre.length).1).map
        (decPair (pre ++ (buildEntries s pre.length).2 ++ post)) = s
      ∧ ∀ i ∈ (buildEntries s pre.length).1,
          FixedType i ∧
            ∃ v, readTagValue i [] (pre ++ (buildEntries s pre.length).2 ++ post) = .ok v := by
  induction s generalizing pre with
  | nil => simp [buildEntries]
  | cons p t ih =>
    obtain ⟨tg, v⟩ := p
    have hvOk : RTOk v := hs (tg, v) (by simp)
    obtain ⟨ihmap, ihall⟩ := ih (pre ++ valueBytes v) (fun q hq => hs q (by simp [hq]))
    have hhead : readTagValue (writeEntryIndex tg v pre.length) []
        (pre ++ valueBytes v ++ ((buildEntries t (pre ++ valueBytes v).length).2 ++ post))
        = .ok v := readTagValue_writeEntryIndex tg v hvOk pre _ []
    rw [buildEntries]
    simp only [List.append_assoc, List.length_append] at ihmap ihall hhead ⊢
    constructor
    · simp only [List.map_cons, List.cons.injEq]
      refine ⟨?_, ihmap⟩
      simp [decPair, hhead, writeEntryIndex_tag, Except.toOption]
    · intro i hi
      rcases List.mem_cons.mp hi with hieq | himem
      · subst hieq
        exact ⟨writeEntryIndex_fixed tg v pre.length hvOk, v, hhead⟩
      · exact ihall i himem

theorem buildEntries_length (s : List (Nat × RType)) (pos : Nat) :
    (buildEntries s pos).1.length = s.length := by
  induction s generalizing pos with
  | nil => rfl
  | cons p t ih =>
    obtain ⟨tg, v⟩ := p
    rw [buildEntries]
    simp [ih]

theorem writeEntryIndex_offset (t : Nat) (v : RType) (c : Nat) :
    (writeEntryIndex t v c).offset = c ∨ (writeEntryIndex t v c).offset = 0 := by
  cases v <;> simp [writeEntryIndex, Index.from]

theorem buildEntries_offset_le (s : List (Nat × RType)) (pos : Nat) :
    ∀ i ∈ (buildEntries s pos).1, i.offset ≤ pos + (buildEntries s pos).2.length := by
  induction s generalizing pos with
  | nil => simp [buildEntries]
  | cons p t ih =>
    obtain ⟨tg, v⟩ := p
    rw [buildEntries]
    intro i hi
    simp only [List.mem_cons] at hi
    simp only [List.length_append]
    rcases hi with hieq | himem
    · subst hieq
      rcases writeEntryIndex_offset tg v pos with h | h <;> omega
    · have := ih (pos + (valueBytes v).length) i himem
      omega

theorem writeEntryIndex_count (t : Nat) (v : RType) (c : Nat) (hv : RTOk v) :
    (writeEntryIndex t v c).count < 2 ^ 32 := by
  cases v with
  | Int8Array a => exact (hv : 2 ≤ a.length ∧ a.length < 2 ^ 32 ∧ _).2.1
  | Int16Array a => exact (hv : 2 ≤ a.length ∧ a.length < 2 ^ 32 ∧ _).2.1
  | Int32Array a => exact (hv : 2 ≤ a.length ∧ a.length < 2 ^ 32 ∧ _).2.1
  | Int64Array a => exact (hv : 2 ≤ a.length ∧ a.length < 2 ^ 32 ∧ _).2.1
  | StringArray a => exact absurd hv (by simp [RTOk])
  | String s => exact absurd hv (by simp [RTOk])
  | Bin b => exact absurd hv (by simp [RTOk])
  | I18nstring s => exact absurd hv (by simp [RTOk])
  | Null => norm_num [writeEntryIndex, Index.from]
  | Char c => norm_num [writeEntryIndex, Index.from]
  | Int8 n => norm_num [writeEntryIndex, Index.from]
  | Int16 n => norm_num [writeEntryIndex, Index.from]
  | Int32 n => norm_num [writeEntryIndex, Index.from]
  | Int64 n => norm_num [writeEntryIndex, Index.from]

theorem buildEntries_count_lt (s : List (Nat × RType)) (pos : Nat)
    (hs : ∀ p ∈ s, RTOk p.2) :
    ∀ i ∈ (buildEntries s pos).1, i.count < 2 ^ 32 := by
  induction s generalizing pos with
  | nil => simp [buildEntries]
  | cons p t ih =>
    obtain ⟨tg, v⟩ := p
    rw [buildEntries]
    intro i hi
    simp only [List.mem_cons] at hi
    rcases hi with hieq | himem
    · subst hieq
      exact writeEntryIndex_count tg v pos (hs (tg, v) (by simp))
    · exact ih (pos + (valueBytes v).length) (fun q hq => hs q (by simp [hq])) i himem

theorem buildEntries_tag_lt (s : List (Nat × RType)) (pos : Nat)
    (hs : ∀ p ∈ s, p.1 < 2 ^ 32) :
    ∀ i ∈ (buildEntries s pos).1, i.tag < 2 ^ 32 := by
  induction s generalizing pos with
  | nil => simp [buildEntries]
  | cons p t ih =>
    obtain ⟨tg, v⟩ := p
    rw [buildEntries]
    intro i hi
    simp only [List.mem_cons] at hi
    rcases hi with hieq | himem
    · subst hieq
      rw [writeEntryIndex_tag]
      exact hs (tg, v) (by simp)
    · exact ih (pos + (valueBytes v).length) (fun q hq => hs q (by simp [hq])) i himem

theorem TType_fromU32_toU32 (t : TType) : TType.fromU32 t.toU32 = t := by
  cases t <;> rfl

theorem TType_toU32_lt (t : TType) : t.toU32 < 256 ^ 4 := by
  cases t <;> decide

theorem indexRead_writeIndexBytes (i : Index) (rest : List Nat)
    (ht : i.tag < 2 ^ 32) (ho : i.offset < 2 ^ 32) (hc : i.count < 2 ^ 32) :
    indexRead (writeIndexBytes i ++ rest) = .ok (i, rest) := by
  rw [indexRead, writeIndexBytes]
  simp only [List.append_assoc]
  rw [takeBE_append _ _ 4 i.tag rfl (by norm_num at ht ⊢; exact ht)]
  simp only [Except.bind, bind]
  rw [takeBE_append _ _ 4 i.itype.toU32 rfl (TType_toU32_lt i.itype)]
  simp only
  rw [takeBE_append _ _ 4 i.offset rfl (by norm_num at ho ⊢; exact ho)]
  simp only
  rw [takeBE_append _ _ 4 i.count rfl (by norm_num at hc ⊢; exact hc)]
  simp only
  rw [TType_fromU32_toU32]

theorem readIndexes_append (idxs : List Index) (post : List Nat)
    (h : ∀ i ∈ idxs, i.tag < 2 ^ 32 ∧ i.offset < 2 ^ 32 ∧ i.count < 2 ^ 32) :
    readIndexes idxs.length ((idxs.map writeIndexBytes).flatten ++ post) = .ok (idxs, post) := by
  induction idxs with
  | nil => rfl
  | cons i t ih =>
    obtain ⟨h1, h2, h3⟩ := h i (by simp)
    simp only [List.map_cons, List.flatten_cons, List.length_cons, List.append_assoc]
    rw [readIndexes]
    rw [show writeIndexBytes i ++ ((t.map writeIndexBytes).flatten ++ post)
        = writeIndexBytes i ++ ((t.map writeIndexBytes).flatten ++ post) from rfl]
    rw [indexRead_writeIndexBytes i _ h1 h2 h3]
    simp only [Except.bind, bind]
    rw [ih (fun j hj => h j (by simp [hj]))]

theorem headerLeadRead_headerLeadBytes (n hsz : Nat) (rest : List Nat)
    (hn : n < 2 ^ 32) (hh : hsz < 2 ^ 32) :
    headerLeadRead (headerLeadBytes n hsz ++ rest) = .ok (n, hsz, rest) := by
  rw [headerLeadRead, headerLeadBytes]
  simp only [List.append_assoc]
  rw [takeBytes_append MAGIC_HEADER _ 4 rfl]
  simp only [Except.bind, bind]
  rw [if_pos trivial]
  rw [takeBytes_append [0, 0, 0, 0] _ 4 rfl]
  simp only
  rw [takeBE_append _ _ 4 n rfl (by norm_num at hn ⊢; exact hn)]
  simp only
  rw [takeBE_append _ _ 4 hsz rfl (by norm_num at hh ⊢; exact hh)]

/-- The hypotheses of the amended tag-store round-trip law: tag ids within
`u32`, every value round-trippable (`RTOk`), and store size and data-blob
length within `u32`. -/
def storeOk (s : List (Nat × RType)) : Prop :=
  (∀ p ∈ s, p.1 < 2 ^ 32 ∧ RTOk p.2) ∧
    s.length < 2 ^ 32 ∧ (buildEntries s 0).2.length < 2 ^ 32

theorem read_store_write_header (s : List (Nat × RType)) (h : storeOk s) :
    ∃ r, read_store (write_header s) = .ok r ∧ r.Perm s := by
  obtain ⟨hps, hslen, hdata⟩ := h
  have hmod : (buildEntries s 0).2.length % 2 ^ 32 = (buildEntries s 0).2.length :=
    Nat.mod_eq_of_lt hdata
  rw [write_header]
  simp only [hmod]
  have hassoc : headerLeadBytes s.length (buildEntries s 0).2.length
      ++ ((buildEntries s 0).1.map writeIndexBytes).flatten ++ (buildEntries s 0).2
      ++ List.replicate (align_n_bytes (buildEntries s 0).2.length 8) 0
      = headerLeadBytes s.length (buildEntries s 0).2.length
        ++ (((buildEntries s 0).1.map writeIndexBytes).flatten ++ ((buildEntries s 0).2
          ++ List.replicate (align_n_bytes (buildEntries s 0).2.length 8) 0)) := by
    simp [List.append_assoc]
  rw [read_store, hassoc,
    headerLeadRead_headerLeadBytes s.length (buildEntries s 0).2.length _ hslen hdata]
  simp only [Except.bind, bind]
  rw [indexArrayRead]
  have hbounds : ∀ i ∈ (buildEntries s 0).1,
      i.tag < 2 ^ 32 ∧ i.offset < 2 ^ 32 ∧ i.count < 2 ^ 32 := by
    intro i hi
    refine ⟨buildEntries_tag_lt s 0 (fun p hp => (hps p hp).1) i hi, ?_,
      buildEntries_count_lt s 0 (fun p hp => (hps p hp).2) i hi⟩
    have := buildEntries_offset_le s 0 i hi
    omega
  rw [show s.length = (buildEntries s 0).1.length from (buildEntries_length s 0).symm,
    readIndexes_append (buildEntries s 0).1 _ hbounds]
  simp only [Except.bind, bind]
  rw [takeBytes_append (buildEntries s 0).2 _ (buildEntries s 0).2.length rfl]
  simp only
  have hspec := buildEntries_spec s [] []
    (fun p hp => (hps p hp).2)
  simp only [List.length_nil, List.nil_append, List.append_nil] at hspec
  obtain ⟨hmap, hall⟩ := hspec
  set idxs := (buildEntries s 0).1 with hidxs
  set data := (buildEntries s 0).2 with hdat
  set sorted := idxs.insertionSort (fun a b => a.offset ≤ b.offset) with hsorted
  have hperm : sorted.Perm idxs := List.perm_insertionSort _ idxs
  have hallsorted : ∀ i ∈ sorted, FixedType i ∧ ∃ v, readTagValue i [] data = .ok v :=
    fun i hi => hall i (hperm.mem_iff.mp hi)
  rw [tagsFromRaw_map sorted data hallsorted]
  refine ⟨sorted.map (decPair data), rfl, ?_⟩
  have h1 : (sorted.map (decPair data)).Perm (idxs.map (decPair data)) := hperm.map _
  rw [hmap] at h1
  exact h1

theorem writeIndexBytes_length (i : Index) : (writeIndexBytes i).length = 16 := by
  simp [writeIndexBytes, beBytes_length]

theorem indexBytes_flatten_length (l : List Index) :
    ((l.map writeIndexBytes).flatten).length = 16 * l.length := by
  induction l with
  | nil => rfl
  | cons i t ih =>
    simp [ih, writeIndexBytes_length]
    ring

theorem headerLeadBytes_length (n hsz : Nat) : (headerLeadBytes n hsz).length = 16 := by
  simp [headerLeadBytes, MAGIC_HEADER, beBytes_length]

theorem write_header_length (s : List (Nat × RType)) :
    (write_header s).length =
      16 + 16 * s.length + (buildEntries s 0).2.length
        + align_n_bytes ((buildEntries s 0).2.length % 2 ^ 32) 8 := by
  rw [write_header]
  simp only [List.length_append, headerLeadBytes_length, indexBytes_flatten_length,
    List.length_replicate, buildEntries_length]

instance (v : RType) : Decidable (RTOk v) := by
  cases v <;> simp only [RTOk] <;> infer_instance

instance (s : List (Nat × RType)) : Decidable (storeOk s) := by
  unfold storeOk
  infer_instance

/-- C8: for every tag store, the total number of bytes emitted by
`write_header` (16-byte header lead, 16 bytes per index entry, the data
blob, and the trailing padding) is divisible by 8, even though the padding
is computed from the data-blob length (`hsize`) alone. -/
theorem write_header_length_divisible_by_8 (s : List (Nat × RType)) :
    (write_header s).length % 8 = 0 := by
  rw [write_header_length]
  unfold align_n_bytes
  have e32 : (2 : Nat) ^ 32 = 4294967296 := by norm_num
  rw [e32]
  omega

/-- C3 (amended): `read_store (write_header s)` succeeds and returns the
entries of `s` (as a multiset — the Rust store is a `HashMap`) for every
store whose values are `Null`, `Char`, integer scalars, or integer arrays
of at least two elements, with tag ids, lengths, and values in range
(`storeOk`).  The unrestricted law of the claim is refuted by the `Bin`
counterexample. -/
theorem tag_store_roundtrip_amended (s : List (Nat × RType)) (h : storeOk s) :
    ∃ r, read_store (write_header s) = .ok r ∧ r.Perm s :=
  read_store_write_header s h

/-- C3 counterexample: a store holding the single entry `Bin [1]` does not
round trip: `Index::from` writes `Bin` with type id `String`, and reading
a `String`-typed last entry indexes `indexes[i + 1]` out of bounds, so
`read_store` panics instead of returning the store. -/
theorem tag_store_roundtrip_bin_fails :
    read_store (write_header [(1000, RType.Bin [1])]) = .error .panic ∧
      ∀ r : List (Nat × RType), read_store (write_header [(1000, RType.Bin [1])]) ≠ .ok r := by
  constructor
  · rfl
  · intro r h
    rw [show read_store (write_header [(1000, RType.Bin [1])]) = .error .panic from rfl] at h
    exact absurd h (by simp)

/-- C3 witness: the amended round-trip law applied to a concrete store
exercising `Null`, `Char`, scalars and a two-element array. -/
theorem tag_store_roundtrip_witness :
    storeOk [(1000, RType.Int32 5), (1001, RType.Int16Array [2, 3]), (1002, RType.Null),
        (1003, RType.Char 97), (1004, RType.Int64 7)] ∧
      ∃ r, read_store (write_header [(1000, RType.Int32 5), (1001, RType.Int16Array [2, 3]),
        (1002, RType.Null), (1003, RType.Char 97), (1004, RType.Int64 7)]) = .ok r ∧
        r.Perm [(1000, RType.Int32 5), (1001, RType.Int16Array [2, 3]), (1002, RType.Null),
          (1003, RType.Char 97), (1004, RType.Int64 7)] :=
  ⟨by decide, tag_store_roundtrip_amended _ (by decide)⟩

/-- C4: an index entry whose `offset + size(type)·count` exceeds the data
blob makes `tags_from_raw` panic (out-of-bounds slice indexing) when the
offset lies beyond the blob, or fail with an `UnexpectedEof`-kind error
when the offset is in bounds but the element bytes are truncated; neither
is the `InvalidData` error the specification requires. -/
theorem tags_from_raw_out_of_bounds_not_invalid_data :
    (tagsFromRaw [{ tag := 1000, itype := .Int32, offset := 8, count := 1 }] []
        = .error .panic)
      ∧ (tagsFromRaw [{ tag := 1000, itype := .Int32, offset := 0, count := 1 }] [0, 0]
        = .error .eof)
      ∧ RErr.panic ≠ RErr.invalidData ∧ RErr.eof ≠ RErr.invalidData :=
  ⟨rfl, rfl, by decide, by decide⟩

/-- C5 (amended): the integer conversion accessors are purely
variant-based widenings — each succeeds exactly when the source variant is
in its fixed widening table, returning the held value unchanged (never
truncated); `Int64` sources are refused by `as_u32` and `as_i64` even when
the value would fit, and likewise `Int32` by `as_u16`. -/
theorem conversion_accessors_characterization (v : RType) (m : Nat) :
    (v.as_u8 = some m ↔ v = .Int8 m)
      ∧ (v.as_u16 = some m ↔ v = .Int8 m ∨ v = .Int16 m)
      ∧ (v.as_u32 = some m ↔ v = .Int8 m ∨ v = .Int16 m ∨ v = .Int32 m)
      ∧ (v.as_u64 = some m ↔ v = .Int8 m ∨ v = .Int16 m ∨ v = .Int32 m ∨ v = .Int64 m)
      ∧ (v.as_i64 = some (Int.ofNat m) ↔ v = .Int8 m ∨ v = .Int16 m ∨ v = .Int32 m) := by
  cases v <;>
    simp [RType.as_u8, RType.as_u16, RType.as_u32, RType.as_u64, RType.as_i64, Int.ofNat_inj]

/-- C5 counterexample: `as_u32` on `Int64(5)` returns `None` although the
value 5 fits `u32` without loss, refuting the value-based reading of the
conversion law. -/
theorem as_u32_int64_refuses_fitting_value :
    (RType.Int64 5).as_u32 = none ∧ (RType.Int64 5).as_u32 ≠ some 5 ∧ (5 : Nat) < 2 ^ 32 :=
  ⟨rfl, by simp [RType.as_u32], by norm_num⟩

/-- The numeric id of `Tag::PayloadCompressor` (`Payloadcompressor = 1125`
in `src/header/tags.rs`). -/
def payloadCompressorTag : Nat := 1125

/-- The decompressors of `RPMFile::into_uncompress_reader`
(`src/rpm/file.rs`); `"xz"` and `"lzma"` share the `XzDecoder`. -/
inductive Decomp where
  | gzip
  | bzip2
  | zstd
  | xz
  deriving Repr, DecidableEq

/-- The compressor-name strings, as scalar-value lists:
`"gzip"`, `"bzip2"`, `"zstd"`, `"xz"`, `"lzma"`. -/
def gzipName : List Nat := [103, 122, 105, 112]

def bzip2Name : List Nat := [98, 122, 105, 112, 50]

def zstdName : List Nat := [122, 115, 116, 100]

def xzName : List Nat := [120, 122]

def lzmaName : List Nat := [108, 122, 109, 97]

/-- The compressor dispatch of `RPMFile::into_uncompress_reader`
(`src/rpm/file.rs`): look up `Tag::PayloadCompressor` in the metadata
store (`ErrorKind::Other`, "Compression is not defined", when absent),
render it with `as_string` (`Other` when that fails), and match the
resulting name; unknown names give `ErrorKind::Other`
("Decompressor ... is not implemented").  The store is the metadata
`HashMap`, modelled as an association list with unique tag ids. -/
def into_uncompress_reader (headerTags : List (Nat × RType)) : Except RErr Decomp :=
  match headerTags.lookup payloadCompressorTag with
  | none => .error .other
  | some v =>
    match v.as_string with
    | none => .error .other
    | some s =>
      if s = gzipName then .ok .gzip
      else if s = bzip2Name then .ok .bzip2
      else if s = zstdName then .ok .zstd
      else if s = xzName then .ok .xz
      else if s = lzmaName then .ok .xz
      else .error .other

/-- C6 (amended): a metadata store without `PayloadCompressor` makes the
payload-reader construction fail with an `ErrorKind::Other` error
("Compression is not defined") — there is no `"gzip"` default; the five
known names dispatch to their decoders, and any other string value fails
with an `ErrorKind::Other` error — not `Unsupported`. -/
theorem into_uncompress_reader_dispatch (tags : List (Nat × RType)) (s : List Nat) :
    (tags.lookup payloadCompressorTag = none →
        into_uncompress_reader tags = .error .other)
      ∧ (tags.lookup payloadCompressorTag = some (RType.String gzipName) →
        into_uncompress_reader tags = .ok .gzip)
      ∧ (tags.lookup payloadCompressorTag = some (RType.String bzip2Name) →
        into_uncompress_reader tags = .ok .bzip2)
      ∧ (tags.lookup payloadCompressorTag = some (RType.String zstdName) →
        into_uncompress_reader tags = .ok .zstd)
      ∧ (tags.lookup payloadCompressorTag = some (RType.String xzName) →
        into_uncompress_reader tags = .ok .xz)
      ∧ (tags.lookup payloadCompressorTag = some (RType.String lzmaName) →
        into_uncompress_reader tags = .ok .xz)
      ∧ (tags.lookup payloadCompressorTag = some (RType.String s) →
        s ≠ gzipName → s ≠ bzip2Name → s ≠ zstdName → s ≠ xzName → s ≠ lzmaName →
        into_uncompress_reader tags = .error .other) := by
  refine ⟨?_, ?_, ?_, ?_, ?_, ?_, ?_⟩
  · intro h
    simp [into_uncompress_reader, h]
  · intro h
    simp [into_uncompress_reader, h, RType.as_string]
  · intro h
    simp [into_uncompress_reader, h, RType.as_string,
      gzipName, bzip2Name, zstdName, xzName, lzmaName]
  · intro h
    simp [into_uncompress_reader, h, RType.as_string,
      gzipName, bzip2Name, zstdName, xzName, lzmaName]
  · intro h
    simp [into_uncompress_reader, h, RType.as_string,
      gzipName, bzip2Name, zstdName, xzName, lzmaName]
  · intro h
    simp [into_uncompress_reader, h, RType.as_string,
      gzipName, bzip2Name, zstdName, xzName, lzmaName]
  · intro h h1 h2 h3 h4 h5
    simp [into_uncompress_reader, h, RType.as_string, if_neg h1, if_neg h2, if_neg h3,
      if_neg h4, if_neg h5]

/-- C6 counterexample: the empty metadata store (no `PayloadCompressor`
tag) yields an `Other`-kind error — not the gzip default the claim
states — and a `"snappy"` value yields an `Other`-kind error — not
`Unsupported`. -/
theorem into_uncompress_reader_no_default :
    into_uncompress_reader [] = .error .other
      ∧ into_uncompress_reader [] ≠ .ok .gzip
      ∧ into_uncompress_reader [(1125, RType.String [115, 110, 97, 112, 112, 121])]
          = .error .other
      ∧ RErr.other ≠ RErr.unsupported := by
  refine ⟨rfl, ?_, rfl, by decide⟩
  intro h
  rw [show into_uncompress_reader [] = .error .other from rfl] at h
  exact absurd h (by simp)

/-- C6 witness: the dispatch theorem applied to a store carrying
`PayloadCompressor = "zstd"`. -/
theorem into_uncompress_reader_witness :
    into_uncompress_reader [(1125, RType.String zstdName)] = .ok .zstd :=
  (into_uncompress_reader_dispatch [(1125, RType.String zstdName)] []).2.2.2.1 rfl

/-- `MAGIC` of the CPIO newc format, the ASCII bytes of `"070701"`
(`src/payload/cpio.rs`). -/
def cpioMagic : List Nat := [48, 55, 48, 55, 48, 49]

/-- `TRAILER` — the scalar values of `"TRAILER!!!"`. -/
def TRAILER : List Nat := [84, 82, 65, 73, 76, 69, 82, 33, 33, 33]

/-- `MAX_NAME_SIZE` (`src/payload/cpio.rs`): 4 KB. -/
def MAX_NAME_SIZE : Nat := 4096

/-- `MAX_CPIO_ENTRY_SIZE` (`src/payload/cpio.rs`): 1 GB. -/
def MAX_CPIO_ENTRY_SIZE : Nat := 1024 * 1024 * 1024

/-- `FileEntry` (`src/payload/cpio.rs`); the name is a Rust `String`,
modelled as its list of scalar values. -/
structure FileEntry where
  name : List Nat
  ino : Nat
  mode : Nat
  uid : Nat
  gid : Nat
  nlink : Nat
  mtime : Nat
  file_size : Nat
  dev_major : Nat
  dev_minor : Nat
  rdev_major : Nat
  rdev_minor : Nat
  deriving Repr, DecidableEq

/-- The tail of `FileEntry::read` after the two size checks: the 8-byte
checksum, `name_size` name bytes whose first `name_size - 1` bytes are
UTF-8 decoded (`ErrorKind::Other` on invalid UTF-8; `ErrorKind::Other`
"incorrect cpio name" when `name_size = 0`), then the
`align_n_bytes(name_size + 6, 4)` padding bytes. -/
def FileEntry.readName (name_size : Nat) (r : List Nat) :
    Except RErr (List Nat × List Nat) := do
  let (_checksum, r13) ← takeBytes 8 r
  let (name_bytes, r14) ← takeBytes name_size r13
  if name_size > 0 then
    match utf8Decode (name_bytes.take (name_size - 1)) with
    | none => .error .other
    | some name => do
      let (_pad, r15) ← takeBytes (align_n_bytes (name_size + 6) 4) r14
      .ok (name, r15)
  else .error .other

/-- `FileEntry::read` (`src/payload/cpio.rs`): magic check
(`ErrorKind::Other` on mismatch), 13 hex-ASCII `u32` fields in wire order,
the `file_size` bound check right after its field and the `name_size`
bound check right after its field (both `InvalidData`, both before the
name buffer is read), then checksum, name, and padding. -/
def FileEntry.read (bytes : List Nat) : Except RErr (FileEntry × List Nat) := do
  let (magic, r0) ← takeBytes 6 bytes
  if magic = cpioMagic then do
    let (ino, r1) ← readHexU32 r0
    let (mode, r2) ← readHexU32 r1
    let (uid, r3) ← readHexU32 r2
    let (gid, r4) ← readHexU32 r3
    let (nlink, r5) ← readHexU32 r4
    let (mtime, r6) ← readHexU32 r5
    let (file_size, r7) ← readHexU32 r6
    if file_size > MAX_CPIO_ENTRY_SIZE then .error .invalidData
    else do
      let (dev_major, r8) ← readHexU32 r7
      let (dev_minor, r9) ← readHexU32 r8
      let (rdev_major, r10) ← readHexU32 r9
      let (rdev_minor, r11) ← readHexU32 r10
      let (name_size, r12) ← readHexU32 r11
      if name_size > MAX_NAME_SIZE then .error .invalidData
      else do
        let (name, r15) ← FileEntry.readName name_size r12
        .ok ({ name := name, ino := ino, mode := mode, uid := uid, gid := gid,
               nlink := nlink, mtime := mtime, file_size := file_size,
               dev_major := dev_major, dev_minor := dev_minor,
               rdev_major := rdev_major, rdev_minor := rdev_minor }, r15)
  else .error .other

/-- `FileEntry::write` (`src/payload/cpio.rs`): magic, 12 hex fields,
`name_size = name.len() + 1` as the 13th, an 8-byte zero checksum, the
name bytes plus a NUL, and zero padding to a 4-byte boundary computed
from `name_size + 6`. -/
def FileEntry.write (e : FileEntry) : List Nat :=
  let name_size := (utf8Encode e.name).length + 1
  cpioMagic ++ writeHexU32 e.ino ++ writeHexU32 e.mode ++ writeHexU32 e.uid
    ++ writeHexU32 e.gid ++ writeHexU32 e.nlink ++ writeHexU32 e.mtime
    ++ writeHexU32 e.file_size ++ writeHexU32 e.dev_major ++ writeHexU32 e.dev_minor
    ++ writeHexU32 e.rdev_major ++ writeHexU32 e.rdev_minor ++ writeHexU32 name_size
    ++ List.replicate 8 0
    ++ (utf8Encode e.name ++ [0])
    ++ List.replicate (align_n_bytes (name_size + 6) 4) 0

/-- C7: reading back the bytes produced by writing a CPIO `FileEntry`
header yields the entry unchanged (and consumes the bytes exactly), for
every entry with a valid-UTF-8 name without interior NUL, name byte
length + 1 at most 4096, `file_size` at most 1 GiB, and `u32` fields. -/
theorem FileEntry_write_read_roundtrip (e : FileEntry)
    (hname : ∀ v ∈ e.name, ValidScalar v)
    (hnonul : ∀ v ∈ e.name, v ≠ 0)
    (hns : (utf8Encode e.name).length + 1 ≤ 4096)
    (hfs : e.file_size ≤ 2 ^ 30)
    (hino : e.ino < 2 ^ 32) (hmode : e.mode < 2 ^ 32) (huid : e.uid < 2 ^ 32)
    (hgid : e.gid < 2 ^ 32) (hnlink : e.nlink < 2 ^ 32) (hmtime : e.mtime < 2 ^ 32)
    (hfs32 : e.file_size < 2 ^ 32) (hdM : e.dev_major < 2 ^ 32) (hdm : e.dev_minor < 2 ^ 32)
    (hrM : e.rdev_major < 2 ^ 32) (hrm : e.rdev_minor < 2 ^ 32) :
    FileEntry.read (FileEntry.write e) = .ok (e, []) := by
  rw [FileEntry.write, FileEntry.read]
  simp only [List.append_assoc]
  rw [takeBytes_append cpioMagic _ 6 rfl]
  simp only [Except.bind, bind]
  rw [if_pos trivial]
  rw [readHexU32_writeHexU32 e.ino _ hino]
  simp only
  rw [readHexU32_writeHexU32 e.mode _ hmode]
  simp only
  rw [readHexU32_writeHexU32 e.uid _ huid]
  simp only
  rw [readHexU32_writeHexU32 e.gid _ hgid]
  simp only
  rw [readHexU32_writeHexU32 e.nlink _ hnlink]
  simp only
  rw [readHexU32_writeHexU32 e.mtime _ hmtime]
  simp only
  rw [readHexU32_writeHexU32 e.file_size _ hfs32]
  simp only
  rw [if_neg (by simp only [MAX_CPIO_ENTRY_SIZE]; omega)]
  rw [readHexU32_writeHexU32 e.dev_major _ hdM]
  simp only
  rw [readHexU32_writeHexU32 e.dev_minor _ hdm]
  simp only
  rw [readHexU32_writeHexU32 e.rdev_major _ hrM]
  simp only
  rw [readHexU32_writeHexU32 e.rdev_minor _ hrm]
  simp only
  rw [readHexU32_writeHexU32 ((utf8Encode e.name).length + 1) _ (by omega)]
  simp only
  rw [if_neg (by simp only [MAX_NAME_SIZE]; omega)]
  rw [FileEntry.readName]
  rw [takeBytes_append (List.replicate 8 0) _ 8 rfl]
  simp only [Except.bind, bind]
  rw [show utf8Encode e.name ++ ([0]
        ++ List.replicate (align_n_bytes ((utf8Encode e.name).length + 1 + 6) 4) 0)
      = (utf8Encode e.name ++ [0])
        ++ List.replicate (align_n_bytes ((utf8Encode e.name).length + 1 + 6) 4) 0 by
    simp [List.append_assoc]]
  rw [takeBytes_append (utf8Encode e.name ++ [0]) _ ((utf8Encode e.name).length + 1)
    (by simp)]
  simp only
  rw [if_pos (by omega : (utf8Encode e.name).length + 1 > 0)]
  have htake : (utf8Encode e.name ++ [0]).take ((utf8Encode e.name).length + 1 - 1)
      = utf8Encode e.name := by
    rw [Nat.add_sub_cancel, List.take_left]
  rw [htake, utf8Decode_encode e.name hname]
  rw [show takeBytes (align_n_bytes ((utf8Encode e.name).length + 1 + 6) 4)
      (List.replicate (align_n_bytes ((utf8Encode e.name).length + 1 + 6) 4) 0)
      = .ok (List.replicate (align_n_bytes ((utf8Encode e.name).length + 1 + 6) 4) 0, []) by
    rw [takeBytes, if_neg (by simp)]
    simp]

theorem takeBytes_cases (n : Nat) (b : List Nat) :
    (∃ p, takeBytes n b = .ok p) ∨ takeBytes n b = .error .eof := by
  unfold takeBytes
  by_cases h : b.length < n
  · right
    rw [if_pos h]
  · left
    exact ⟨_, by rw [if_neg h]⟩

theorem readName_not_invalidData (ns : Nat) (r : List Nat) :
    FileEntry.readName ns r ≠ .error .invalidData := by
  rw [FileEntry.readName]
  rcases takeBytes_cases 8 r with ⟨⟨cs, r13⟩, h⟩ | h <;> rw [h] <;>
    simp only [Except.bind, bind]
  · rcases takeBytes_cases ns r13 with ⟨⟨nb, r14⟩, h2⟩ | h2 <;> rw [h2] <;> simp only
    · by_cases h3 : ns > 0
      · rw [if_pos h3]
        cases hu : utf8Decode (nb.take (ns - 1))
        · simp
        · simp only
          rcases takeBytes_cases (align_n_bytes (ns + 6) 4) r14 with ⟨⟨pd, r15⟩, h4⟩ | h4 <;>
            rw [h4] <;> simp
      · rw [if_neg h3]
        simp
    · simp
  · simp

/-- C2: `FileEntry::read` rejects a header whose `file_size` field exceeds
2^30 with `InvalidData` immediately after that field (whatever the later
bytes are), rejects `name_size` above 4096 with `InvalidData` before the
name bytes are touched, and, when both fields are at or below their
bounds, never produces `InvalidData` — in particular the boundary values
`file_size = 2^30` and `name_size = 4096` pass both checks. -/
theorem FileEntry_read_size_checks
    (ino mode uid gid nlink mtime fs dM dm rM rm ns : Nat) (tail : List Nat)
    (hino : ino < 2 ^ 32) (hmode : mode < 2 ^ 32) (huid : uid < 2 ^ 32)
    (hgid : gid < 2 ^ 32) (hnlink : nlink < 2 ^ 32) (hmtime : mtime < 2 ^ 32)
    (hfs : fs < 2 ^ 32) (hdM : dM < 2 ^ 32) (hdm : dm < 2 ^ 32) (hrM : rM < 2 ^ 32)
    (hrm : rm < 2 ^ 32) (hns : ns < 2 ^ 32) :
    (fs > 2 ^ 30 →
        FileEntry.read (cpioMagic ++ writeHexU32 ino ++ writeHexU32 mode ++ writeHexU32 uid
          ++ writeHexU32 gid ++ writeHexU32 nlink ++ writeHexU32 mtime ++ writeHexU32 fs
          ++ writeHexU32 dM ++ writeHexU32 dm ++ writeHexU32 rM ++ writeHexU32 rm
          ++ writeHexU32 ns ++ tail) = .error .invalidData)
      ∧ (fs ≤ 2 ^ 30 → ns > 4096 →
        FileEntry.read (cpioMagic ++ writeHexU32 ino ++ writeHexU32 mode ++ writeHexU32 uid
          ++ writeHexU32 gid ++ writeHexU32 nlink ++ writeHexU32 mtime ++ writeHexU32 fs
          ++ writeHexU32 dM ++ writeHexU32 dm ++ writeHexU32 rM ++ writeHexU32 rm
          ++ writeHexU32 ns ++ tail) = .error .invalidData)
      ∧ (fs ≤ 2 ^ 30 → ns ≤ 4096 →
        FileEntry.read (cpioMagic ++ writeHexU32 ino ++ writeHexU32 mode ++ writeHexU32 uid
          ++ writeHexU32 gid ++ writeHexU32 nlink ++ writeHexU32 mtime ++ writeHexU32 fs
          ++ writeHexU32 dM ++ writeHexU32 dm ++ writeHexU32 rM ++ writeHexU32 rm
          ++ writeHexU32 ns ++ tail) ≠ .error .invalidData) := by
  refine ⟨?_, ?_, ?_⟩
  · intro hbig
    rw [FileEntry.read]
    simp only [List.append_assoc]
    rw [takeBytes_append cpioMagic _ 6 rfl]
    simp only [Except.bind, bind]
    rw [if_pos trivial]
    rw [readHexU32_writeHexU32 ino _ hino]
    simp only
    rw [readHexU32_writeHexU32 mode _ hmode]
    simp only
    rw [readHexU32_writeHexU32 uid _ huid]
    simp only
    rw [readHexU32_writeHexU32 gid _ hgid]
    simp only
    rw [readHexU32_writeHexU32 nlink _ hnlink]
    simp only
    rw [readHexU32_writeHexU32 mtime _ hmtime]
    simp only
    rw [readHexU32_writeHexU32 fs _ hfs]
    simp only
    rw [if_pos (by simp only [MAX_CPIO_ENTRY_SIZE]; omega)]
  · intro hok hbig
    rw [FileEntry.read]
    simp only [List.append_assoc]
    rw [takeBytes_append cpioMagic _ 6 rfl]
    simp only [Except.bind, bind]
    rw [if_pos trivial]
    rw [readHexU32_writeHexU32 ino _ hino]
    simp only
    rw [readHexU32_writeHexU32 mode _ hmode]
    simp only
    rw [readHexU32_writeHexU32 uid _ huid]
    simp only
    rw [readHexU32_writeHexU32 gid _ hgid]
    simp only
    rw [readHexU32_writeHexU32 nlink _ hnlink]
    simp only
    rw [readHexU32_writeHexU32 mtime _ hmtime]
    simp only
    rw [readHexU32_writeHexU32 fs _ hfs]
    simp only
    rw [if_neg (by simp only [MAX_CPIO_ENTRY_SIZE]; omega)]
    rw [readHexU32_writeHexU32 dM _ hdM]
    simp only
    rw [readHexU32_writeHexU32 dm _ hdm]
    simp only
    rw [readHexU32_writeHexU32 rM _ hrM]
    simp only
    rw [readHexU32_writeHexU32 rm _ hrm]
    simp only
    rw [readHexU32_writeHexU32 ns _ hns]
    simp only
    rw [if_pos (by simp only [MAX_NAME_SIZE]; omega)]
  · intro hok hok2
    rw [FileEntry.read]
    simp only [List.append_assoc]
    rw [takeBytes_append cpioMagic _ 6 rfl]
    simp only [Except.bind, bind]
    rw [if_pos trivial]
    rw [readHexU32_writeHexU32 ino _ hino]
    simp only
    rw [readHexU32_writeHexU32 mode _ hmode]
    simp only
    rw [readHexU32_writeHexU32 uid _ huid]
    simp only
    rw [readHexU32_writeHexU32 gid _ hgid]
    simp only
    rw [readHexU32_writeHexU32 nlink _ hnlink]
    simp only
    rw [readHexU32_writeHexU32 mtime _ hmtime]
    simp only
    rw [readHexU32_writeHexU32 fs _ hfs]
    simp only
    rw [if_neg (by simp only [MAX_CPIO_ENTRY_SIZE]; omega)]
    rw [readHexU32_writeHexU32 dM _ hdM]
    simp only
    rw [readHexU32_writeHexU32 dm _ hdm]
    simp only
    rw [readHexU32_writeHexU32 rM _ hrM]
    simp only
    rw [readHexU32_writeHexU32 rm _ hrm]
    simp only
    rw [readHexU32_writeHexU32 ns _ hns]
    simp only
    rw [if_neg (by simp only [MAX_NAME_SIZE]; omega)]
    cases hr : FileEntry.readName ns tail with
    | error e =>
      show Except.error e ≠ Except.error RErr.invalidData
      intro hcontra
      have he : e = RErr.invalidData := by injection hcontra
      subst he
      exact (readName_not_invalidData ns tail) hr
    | ok p =>
      show Except.ok _ ≠ Except.error RErr.invalidData
      simp

/-- C2 witness: the size checks applied to a concrete oversized header —
`file_size = 2^30 + 1` is rejected with `InvalidData` — discharging all
field bounds at concrete values. -/
theorem FileEntry_read_size_checks_witness :
    FileEntry.read (cpioMagic ++ writeHexU32 0 ++ writeHexU32 0 ++ writeHexU32 0
      ++ writeHexU32 0 ++ writeHexU32 0 ++ writeHexU32 0 ++ writeHexU32 1073741825
      ++ writeHexU32 0 ++ writeHexU32 0 ++ writeHexU32 0 ++ writeHexU32 0
      ++ writeHexU32 0 ++ []) = .error .invalidData :=
  (FileEntry_read_size_checks 0 0 0 0 0 0 1073741825 0 0 0 0 0 []
    (by norm_num) (by norm_num) (by norm_num) (by norm_num) (by norm_num) (by norm_num)
    (by norm_num) (by norm_num) (by norm_num) (by norm_num) (by norm_num)
    (by norm_num)).1 (by norm_num)

/-- The sample entry of the C7 witness: a 5-byte file named `"h.txt"`. -/
def sampleEntry : FileEntry :=
  { name := [104, 46, 116, 120, 116]
    ino := 1
    mode := 33188
    uid := 1000
    gid := 1000
    nlink := 1
    mtime := 42
    file_size := 5
    dev_major := 0
    dev_minor := 0
    rdev_major := 0
    rdev_minor := 0 }

/-- C7 witness: the header round trip applied to a concrete 5-byte file
entry named `"h.txt"`. -/
theorem FileEntry_write_read_roundtrip_witness :
    FileEntry.read (FileEntry.write sampleEntry) = .ok (sampleEntry, []) :=
  FileEntry_write_read_roundtrip sampleEntry (by decide) (by decide) (by decide)
    (by decide) (by decide) (by decide) (by decide) (by decide) (by decide)
    (by decide) (by decide) (by decide) (by decide) (by decide) (by decide)

/-- `MAGIC` of the RPM lead (`src/lead.rs`): `ED AB EE DB`. -/
def leadMagic : List Nat := [237, 171, 238, 219]

/-- The package-kind enum `Type` of `src/lead.rs` (`Binary = 0`,
`Source = 1`), named `LeadType` here. -/
inductive LeadType where
  | Binary
  | Source
  deriving Repr, DecidableEq

/-- `Type::from_u16`. -/
def LeadType.fromU16 (n : Nat) : Option LeadType :=
  match n with
  | 0 => some .Binary
  | 1 => some .Source
  | _ => none

/-- `Lead` (`src/lead.rs`); `name` is 66 bytes, `reserved` 16 bytes. -/
structure Lead where
  magic : List Nat
  major : Nat
  minor : Nat
  rpm_type : LeadType
  archnum : Nat
  name : List Nat
  osnum : Nat
  signature_type : Nat
  reserved : List Nat
  deriving Repr, DecidableEq

/-- `Lead::read` (`src/lead.rs`): seek to start (the model reads from the
front), validate the magic (`ErrorKind::Other`, "File is not rpm"), read
major and minor, accept exactly the version pairs (3,0), (3,1), (4,0)
(`ErrorKind::Other`, "rpm format version is not supported", otherwise),
parse the kind enum (`ErrorKind::Other` when unknown), then the remaining
fields.  The two version bytes are read as one 2-byte `read_exact`,
modelled as two 1-byte reads. -/
def Lead.read (bytes : List Nat) : Except RErr (Lead × List Nat) := do
  let (magic, r1) ← takeBytes 4 bytes
  if magic = leadMagic then do
    let (major, r2) ← takeBE 1 r1
    let (minor, r3) ← takeBE 1 r2
    if (major = 3 ∧ minor = 0) ∨ (major = 3 ∧ minor = 1) ∨ (major = 4 ∧ minor = 0) then do
      let (rpm_type_id, r4) ← takeBE 2 r3
      match LeadType.fromU16 rpm_type_id with
      | none => .error .other
      | some rpm_type => do
        let (archnum, r5) ← takeBE 2 r4
        let (name, r6) ← takeBytes 66 r5
        let (osnum, r7) ← takeBE 2 r6
        let (signature_type, r8) ← takeBE 2 r7
        let (reserved, r9) ← takeBytes 16 r8
        .ok ({ magic := magic, major := major, minor := minor, rpm_type := rpm_type,
               archnum := archnum, name := name, osnum := osnum,
               signature_type := signature_type, reserved := reserved }, r9)
    else .error .other
  else .error .other

/-- The lead wire layout (what `Lead::write` emits and `Lead::read`
consumes): magic, major, minor, 2-byte kind, 2-byte archnum, 66-byte
name, 2-byte osnum, 2-byte signature type, 16 reserved bytes. -/
def leadBytes (major minor t arch : Nat) (name66 : List Nat) (os sig : Nat)
    (reserved16 rest : List Nat) : List Nat :=
  leadMagic ++ [major, minor] ++ beBytes 2 t ++ beBytes 2 arch ++ name66
    ++ beBytes 2 os ++ beBytes 2 sig ++ reserved16 ++ rest

/-- C9 (amended): `Lead::read` validates the magic `ED AB EE DB`
(`ErrorKind::Other` on mismatch) and accepts exactly the version pairs
(3,0), (3,1), (4,0); any other version pair fails with an
`ErrorKind::Other` error ("rpm format version is not supported") — not
`ErrorKind::Unsupported` — and no `Lead` is produced. -/
theorem lead_read_version_validation (major minor t arch os sig : Nat)
    (name66 reserved16 rest m4 : List Nat)
    (hmaj : major < 256) (hmin : minor < 256) (ht : t = 0 ∨ t = 1)
    (harch : arch < 2 ^ 16) (hos : os < 2 ^ 16) (hsig : sig < 2 ^ 16)
    (hn : name66.length = 66) (hr : reserved16.length = 16) :
    ((major = 3 ∧ minor = 0) ∨ (major = 3 ∧ minor = 1) ∨ (major = 4 ∧ minor = 0) →
        ∃ l, Lead.read (leadBytes major minor t arch name66 os sig reserved16 rest)
          = .ok (l, rest) ∧ l.major = major ∧ l.minor = minor)
      ∧ (¬((major = 3 ∧ minor = 0) ∨ (major = 3 ∧ minor = 1) ∨ (major = 4 ∧ minor = 0)) →
        Lead.read (leadBytes major minor t arch name66 os sig reserved16 rest)
          = .error .other ∧ RErr.other ≠ RErr.unsupported)
      ∧ (m4.length = 4 → m4 ≠ leadMagic → Lead.read (m4 ++ rest) = .error .other) := by
  refine ⟨?_, ?_, ?_⟩
  · intro hver
    rw [Lead.read, leadBytes]
    simp only [List.append_assoc]
    rw [takeBytes_append leadMagic _ 4 rfl]
    simp only [Except.bind, bind]
    rw [if_pos trivial]
    simp only [List.cons_append, List.nil_append]
    rw [show major :: (minor :: (beBytes 2 t ++ (beBytes 2 arch ++ (name66 ++ (beBytes 2 os
          ++ (beBytes 2 sig ++ (reserved16 ++ rest)))))))
        = beBytes 1 major ++ (minor :: (beBytes 2 t ++ (beBytes 2 arch ++ (name66
          ++ (beBytes 2 os ++ (beBytes 2 sig ++ (reserved16 ++ rest))))))) by
      simp [beBytes]
      omega]
    rw [takeBE_append _ _ 1 major rfl (by norm_num at hmaj ⊢; exact hmaj)]
    simp only
    rw [show minor :: (beBytes 2 t ++ (beBytes 2 arch ++ (name66 ++ (beBytes 2 os
          ++ (beBytes 2 sig ++ (reserved16 ++ rest))))))
        = beBytes 1 minor ++ (beBytes 2 t ++ (beBytes 2 arch ++ (name66 ++ (beBytes 2 os
          ++ (beBytes 2 sig ++ (reserved16 ++ rest)))))) by
      simp [beBytes]
      omega]
    rw [takeBE_append _ _ 1 minor rfl (by norm_num at hmin ⊢; exact hmin)]
    simp only
    rw [if_pos hver]
    rw [takeBE_append _ _ 2 t rfl (by rcases ht with h | h <;> subst h <;> norm_num)]
    simp only
    have htid : LeadType.fromU16 t =
        some (if t = 0 then LeadType.Binary else LeadType.Source) := by
      rcases ht with h | h <;> subst h <;> rfl
    rw [htid]
    simp only
    rw [takeBE_append _ _ 2 arch rfl (by norm_num at harch ⊢; exact harch)]
    simp only
    rw [takeBytes_append name66 _ 66 hn]
    simp only
    rw [takeBE_append _ _ 2 os rfl (by norm_num at hos ⊢; exact hos)]
    simp only
    rw [takeBE_append _ _ 2 sig rfl (by norm_num at hsig ⊢; exact hsig)]
    simp only
    rw [takeBytes_append reserved16 rest 16 hr]
    simp only
    exact ⟨_, rfl, rfl, rfl⟩
  · intro hver
    refine ⟨?_, by decide⟩
    rw [Lead.read, leadBytes]
    simp only [List.append_assoc]
    rw [takeBytes_append leadMagic _ 4 rfl]
    simp only [Except.bind, bind]
    rw [if_pos trivial]
    simp only [List.cons_append, List.nil_append]
    rw [show major :: (minor :: (beBytes 2 t ++ (beBytes 2 arch ++ (name66 ++ (beBytes 2 os
          ++ (beBytes 2 sig ++ (reserved16 ++ rest)))))))
        = beBytes 1 major ++ (minor :: (beBytes 2 t ++ (beBytes 2 arch ++ (name66
          ++ (beBytes 2 os ++ (beBytes 2 sig ++ (reserved16 ++ rest))))))) by
      simp [beBytes]
      omega]
    rw [takeBE_append _ _ 1 major rfl (by norm_num at hmaj ⊢; exact hmaj)]
    simp only
    rw [show minor :: (beBytes 2 t ++ (beBytes 2 arch ++ (name66 ++ (beBytes 2 os
          ++ (beBytes 2 sig ++ (reserved16 ++ rest))))))
        = beBytes 1 minor ++ (beBytes 2 t ++ (beBytes 2 arch ++ (name66 ++ (beBytes 2 os
          ++ (beBytes 2 sig ++ (reserved16 ++ rest)))))) by
      simp [beBytes]
      omega]
    rw [takeBE_append _ _ 1 minor rfl (by norm_num at hmin ⊢; exact hmin)]
    simp only
    rw [if_neg hver]
  · intro hm4 hne
    rw [Lead.read]
    rw [takeBytes_append m4 rest 4 hm4]
    simp only [Except.bind, bind]
    rw [if_neg hne]

/-- C9 counterexample: bytes beginning `ED AB EE DB 02 00` (version 2.0)
make `Lead::read` fail with an `ErrorKind::Other` error, not the
`Unsupported` kind named by the claim. -/
theorem lead_read_version_2_0_other_not_unsupported :
    Lead.read (leadMagic ++ [2, 0] ++ List.replicate 90 0) = .error .other
      ∧ RErr.other ≠ RErr.unsupported :=
  ⟨rfl, by decide⟩

/-- C9 witness: the validation theorem applied at version pair (2,0) with
a concrete well-formed remainder, and at the accepted pair (3,0). -/
theorem lead_read_version_validation_witness :
    Lead.read (leadBytes 2 0 0 0 (List.replicate 66 0) 0 5 (List.replicate 16 0) [])
        = .error .other
      ∧ ∃ l, Lead.read (leadBytes 3 0 0 0 (List.replicate 66 0) 0 5 (List.replicate 16 0) [])
        = .ok (l, []) ∧ l.major = 3 ∧ l.minor = 0 :=
  ⟨((lead_read_version_validation 2 0 0 0 0 5 (List.replicate 66 0) (List.replicate 16 0)
      [] [] (by norm_num) (by norm_num) (Or.inl rfl) (by norm_num) (by norm_num)
      (by norm_num) (by simp) (by simp)).2.1 (by simp)).1,
    (lead_read_version_validation 3 0 0 0 0 5 (List.replicate 66 0) (List.replicate 16 0)
      [] [] (by norm_num) (by norm_num) (Or.inl rfl) (by norm_num) (by norm_num)
      (by norm_num) (by simp) (by simp)).1 (by simp)⟩

/-- `impl PartialEq for Lead` (`src/lead.rs`): compares magic, minor,
rpm_type, archnum, osnum, signature_type, reserved, name (and reserved and
magic a second time, as in the source) — the `major` field is not
compared. -/
def Lead.eqLead (a b : Lead) : Bool :=
  a.magic == b.magic && a.minor == b.minor && a.rpm_type == b.rpm_type
    && a.archnum == b.archnum && a.osnum == b.osnum
    && a.signature_type == b.signature_type && a.reserved == b.reserved
    && a.name == b.name && a.reserved == b.reserved && a.magic == b.magic

/-- C10: the `PartialEq` implementation of `Lead` ignores the `major`
field — any two leads that differ only in `major` compare as equal (and
the comparison is reflexive on every other field). -/
theorem lead_eq_ignores_major (a : Lead) (m : Nat) :
    Lead.eqLead a { a with major := m } = true := by
  simp [Lead.eqLead]

/-- `std::path::Component` for the Unix paths this crate handles. -/
inductive PComp where
  | RootDir
  | CurDir
  | ParentDir
  | Normal (s : List Nat)
  deriving Repr, DecidableEq

/-- `Path::components` (Unix): split on `/` (47); empty components
collapse, `.` (46) survives only as a leading component, `..` ([46, 46])
is `ParentDir`, and a leading `/` contributes `RootDir`. -/
def pathComponents (p : List Nat) : List PComp :=
  let hasRoot := p.head? = some 47
  let parts := (p.splitOn 47).filter (fun q => !q.isEmpty)
  let tagged := (parts.filter (fun q => decide (q ≠ [46]))).map
    (fun q => if q = [46, 46] then PComp.ParentDir else PComp.Normal q)
  if hasRoot then PComp.RootDir :: tagged
  else
    match parts with
    | q :: _ => if q = [46] then PComp.CurDir :: tagged else tagged
    | [] => tagged

/-- `is_safe_path` (`src/payload/cpio.rs`): reject a name that contains a
`ParentDir` component, is absolute (on Unix: starts with `/`), or starts
with a `RootDir` component. -/
def is_safe_path (p : List Nat) : Bool :=
  let has_traversal := (pathComponents p).any (fun c => decide (c = PComp.ParentDir))
  let is_absolute := decide (p.head? = some 47)
  let starts_with_root := decide ((pathComponents p).head? = some PComp.RootDir)
  !has_traversal && !is_absolute && !starts_with_root

/-- The model filesystem for extraction: existing directories, files with
contents, and recorded modification times.  The model is symlink-free, so
`canonicalize` is the identity on existing paths. -/
structure FS where
  dirs : List (List Nat)
  files : List (List Nat × List Nat)
  mtimes : List (List Nat × Nat)
  deriving Repr, DecidableEq

/-- `Path::parent` on the byte-level path: everything before the last
separator. -/
def parentPath (p : List Nat) : List Nat :=
  match p.reverse.findIdx? (fun b => decide (b = 47)) with
  | none => []
  | some i => p.take (p.length - 1 - i)

/-- A path that exists in the model filesystem (directory or file). -/
def FS.existsPath (fs : FS) (p : List Nat) : Bool :=
  fs.dirs.contains p || (fs.files.map Prod.fst).contains p

/-- The file-writing tail of `extract_entry`: open with create+truncate
(the file entry appears even when the payload copy then hits EOF), copy
exactly `file_size` payload bytes (`io_copy_exact`), then record the
mtime (`set_file_mtime`). -/
def writeFileStep (fs : FS) (path : List Nat) (entry : FileEntry) (rest : List Nat) :
    FS × Except RErr (FileEntry × Nat) :=
  let fs1 := { fs with files := (path, rest.take entry.file_size) :: fs.files }
  if rest.length < entry.file_size then (fs1, .error .eof)
  else ({ fs1 with mtimes := (path, entry.mtime) :: fs1.mtimes }, .ok (entry, entry.file_size))

/-- `extract_entry` (`src/payload/cpio.rs`) over the symlink-free model
filesystem: read the entry; for a non-trailer entry, reject an unsafe
name with `InvalidInput` before any filesystem operation; canonicalize
the extraction directory (in the symlink-free model: it must exist, else
the `canonicalize` error is mapped to `InvalidInput`);
`compute_safe_canonical_path` then resolves to the joined path itself,
whose prefix check against the canonical root always passes for a safe
relative name (the symlink-escape detection has nothing to detect without
symlinks).  Then: `nlink == 2` creates the directory and sets its mtime;
otherwise missing parents are created when `creates_dir` is set (else
`NotFound`), and the file is written.  `change_owner` touches ownership
metadata outside this model. -/
def extract_entry (bytes : List Nat) (fs : FS) (dir : List Nat)
    (creates_dir : Bool) : FS × Except RErr (FileEntry × Nat) :=
  match FileEntry.read bytes with
  | .error e => (fs, .error e)
  | .ok (entry, rest) =>
    if entry.name ≠ TRAILER then
      let path := dir ++ [47] ++ entry.name
      if ¬ is_safe_path entry.name then (fs, .error .invalidInput)
      else if ¬ fs.dirs.contains dir then (fs, .error .invalidInput)
      else
        if entry.nlink = 2 then
          let fs1 := if fs.dirs.contains path then fs else { fs with dirs := path :: fs.dirs }
          ({ fs1 with mtimes := (path, entry.mtime) :: fs1.mtimes }, .ok (entry, 0))
        else
          let parent := parentPath path
          if ¬ fs.existsPath parent then
            if creates_dir then
              writeFileStep { fs with dirs := parent :: fs.dirs } path entry rest
            else (fs, .error .notFound)
          else writeFileStep fs path entry rest
    else (fs, .ok (entry, 0))

theorem is_safe_path_false_of_unsafe (p : List Nat)
    (h : PComp.ParentDir ∈ pathComponents p ∨ p.head? = some 47
      ∨ (pathComponents p).head? = some PComp.RootDir) :
    is_safe_path p = false := by
  unfold is_safe_path
  rcases h with h | h | h
  · have hany : (pathComponents p).any (fun c => decide (c = PComp.ParentDir)) = true := by
      rw [List.any_eq_true]
      exact ⟨_, h, by simp⟩
    simp [hany]
  · simp [h]
  · simp [h]

/-- C1: for every CPIO entry whose name contains a `..` (`ParentDir`)
component, is an absolute path, or begins with a root separator,
`extract_entry` fails with `InvalidInput` and performs no filesystem
modification — the returned filesystem state is exactly the input state,
for every starting state, extraction root and `creates_dir` flag. -/
theorem extract_entry_unsafe_name_rejected (bytes : List Nat) (fs : FS) (dir : List Nat)
    (creates_dir : Bool) (entry : FileEntry) (rest : List Nat)
    (hread : FileEntry.read bytes = .ok (entry, rest))
    (hbad : PComp.ParentDir ∈ pathComponents entry.name ∨ entry.name.head? = some 47
      ∨ (pathComponents entry.name).head? = some PComp.RootDir) :
    extract_entry bytes fs dir creates_dir = (fs, .error .invalidInput) := by
  have hsafe : is_safe_path entry.name = false := is_safe_path_false_of_unsafe _ hbad
  have htrailer : entry.name ≠ TRAILER := by
    intro he
    rw [he] at hbad
    revert hbad
    decide
  rw [extract_entry, hread]
  simp only
  rw [if_pos htrailer, if_pos (by simp [hsafe])]

/-- The malicious entry of the C1 witness: name `"../evil"`. -/
def evilEntry : FileEntry :=
  { name := [46, 46, 47, 101, 118, 105, 108]
    ino := 1
    mode := 33188
    uid := 0
    gid := 0
    nlink := 1
    mtime := 0
    file_size := 0
    dev_major := 0
    dev_minor := 0
    rdev_major := 0
    rdev_minor := 0 }

/-- The starting filesystem of the C1 witness: one extraction root
`"tmp"`, no files. -/
def fsTmp : FS :=
  { dirs := [[116, 109, 112]]
    files := []
    mtimes := [] }

set_option maxRecDepth 4000 in
/-- C1 witness: extracting an archive whose entry is named `"../evil"`
into the root `"tmp"` fails with `InvalidInput` and leaves the
filesystem unchanged. -/
theorem extract_entry_unsafe_name_rejected_witness :
    extract_entry (FileEntry.write evilEntry) fsTmp [116, 109, 112] true
      = (fsTmp, .error .invalidInput) :=
  extract_entry_unsafe_name_rejected (FileEntry.write evilEntry) fsTmp [116, 109, 112] true
    evilEntry [] rfl (by decide)
